import Mathlib

/-!
Verification of the batching dispatcher in `src/spapi/updateListItems.js`
(SPWidgets).

The development shallow-embeds the core of `updateListItems`:

* the batch builder `getBatchUpdateList` (lines 101-120), which drains the
  `opt._updates` queue up to `opt.batchSize` descriptors at a time and wraps
  the concatenation in a `<Batch OnError="Continue">...</Batch>` envelope;
* the concurrency-limited dispatch loop `execBatchUpdate` / `onUpdateDone`
  (lines 121-170), modelled as an explicit state machine whose completion
  events (one per settled ajax promise) are driven by an arbitrary schedule;
* the response aggregator `processAjaxResponses` (lines 184-260) together
  with the jQuery `$.when` semantics that feed it (lines 262-269);
* the option-preprocessing prefix (line 80 and `getUpdateArray`,
  lines 287-402), embedded over an explicit object heap so that the
  aliasing of the caller's `valuepairs` array is observable.

JavaScript values that flow through the aggregator (payloads, jqXHR
objects, strings, `undefined`) are modelled by the inductive type `JVal`;
indexing (`v[i]`), truthiness and `||` are given their JavaScript meaning
on that type.  External collaborators (`doesMsgHaveError`, `getMsgError`,
`getSiteUrl`, the network transport) are parameters.
-/

/-! ### JavaScript values seen by the response aggregator -/

/-- A JavaScript value as it appears in the ajax callback arguments:
a string, an opaque object (jqXHR or parsed response payload, identified
by a tag), an array, or `undefined`. -/
inductive JVal where
  | str : String → JVal
  | obj : Nat → JVal
  | arr : List JVal → JVal
  | jsUndefined : JVal

mutual

/-- Boolean equality on `JVal` (the nesting through `List` prevents the
derived instance). -/
def JVal.beq : JVal → JVal → Bool
  | .str a, .str b => a == b
  | .obj a, .obj b => a == b
  | .arr a, .arr b => JVal.beqList a b
  | .jsUndefined, .jsUndefined => true
  | _, _ => false

/-- See `JVal.beq`. -/
def JVal.beqList : List JVal → List JVal → Bool
  | [], [] => true
  | a :: as, b :: bs => JVal.beq a b && JVal.beqList as bs
  | _, _ => false

end

mutual

def JVal.eq_of_beq : ∀ (a b : JVal), JVal.beq a b = true → a = b
  | .str a, .str b, h => by
      simpa [JVal.beq] using h
  | .obj a, .obj b, h => by
      simpa [JVal.beq] using h
  | .arr a, .arr b, h => by
      rw [JVal.eqList_of_beqList a b (by simpa [JVal.beq] using h)]
  | .jsUndefined, .jsUndefined, _ => rfl
  | .str _, .obj _, h => by simp [JVal.beq] at h
  | .str _, .arr _, h => by simp [JVal.beq] at h
  | .str _, .jsUndefined, h => by simp [JVal.beq] at h
  | .obj _, .str _, h => by simp [JVal.beq] at h
  | .obj _, .arr _, h => by simp [JVal.beq] at h
  | .obj _, .jsUndefined, h => by simp [JVal.beq] at h
  | .arr _, .str _, h => by simp [JVal.beq] at h
  | .arr _, .obj _, h => by simp [JVal.beq] at h
  | .arr _, .jsUndefined, h => by simp [JVal.beq] at h
  | .jsUndefined, .str _, h => by simp [JVal.beq] at h
  | .jsUndefined, .obj _, h => by simp [JVal.beq] at h
  | .jsUndefined, .arr _, h => by simp [JVal.beq] at h

def JVal.eqList_of_beqList :
    ∀ (as bs : List JVal), JVal.beqList as bs = true → as = bs
  | [], [], _ => rfl
  | a :: as, b :: bs, h => by
      have h1 : JVal.beq a b = true := by
        have := h
        simp [JVal.beqList, Bool.and_eq_true] at this
        exact this.1
      have h2 : JVal.beqList as bs = true := by
        have := h
        simp [JVal.beqList, Bool.and_eq_true] at this
        exact this.2
      rw [JVal.eq_of_beq a b h1, JVal.eqList_of_beqList as bs h2]
  | [], _ :: _, h => by simp [JVal.beqList] at h
  | _ :: _, [], h => by simp [JVal.beqList] at h

end

mutual

def JVal.beq_rfl : ∀ (a : JVal), JVal.beq a a = true
  | .str a => by simp [JVal.beq]
  | .obj a => by simp [JVal.beq]
  | .arr a => by simpa [JVal.beq] using JVal.beqList_rfl a
  | .jsUndefined => rfl

def JVal.beqList_rfl : ∀ (as : List JVal), JVal.beqList as as = true
  | [] => rfl
  | a :: as => by
      simp only [JVal.beqList, Bool.and_eq_true]
      exact ⟨JVal.beq_rfl a, JVal.beqList_rfl as⟩

end

instance : DecidableEq JVal := fun a b =>
  if h : JVal.beq a b = true then .isTrue (JVal.eq_of_beq a b h)
  else .isFalse (fun he => h (he ▸ JVal.beq_rfl a))

/-- JavaScript member indexing `v[i]`: arrays yield the element (or
`undefined` out of range); strings yield the one-character string at that
index (or `undefined`); objects and `undefined` yield `undefined`. -/
def jsGet (v : JVal) (i : Nat) : JVal :=
  match v with
  | .arr xs => xs.getD i .jsUndefined
  | .str s =>
      match s.toList.get? i with
      | some c => .str (String.mk [c])
      | none => .jsUndefined
  | .obj _ => .jsUndefined
  | .jsUndefined => .jsUndefined

/-- JavaScript truthiness of the values of `JVal`: `undefined` and the
empty string are falsy; objects, arrays and non-empty strings are truthy. -/
def jsTruthy : JVal → Bool
  | .str s => s ≠ ""
  | .obj _ => true
  | .arr _ => true
  | .jsUndefined => false

/-- JavaScript `a || b`. -/
def jsOr (a b : JVal) : JVal := if jsTruthy a then a else b

/-- JavaScript `Array.prototype.push` (on non-arrays it is never invoked
by the embedded code; we make it the identity there). -/
def jsPush (v add : JVal) : JVal :=
  match v with
  | .arr xs => .arr (xs ++ [add])
  | other => other

/-! ### Transport outcomes

Each `$.ajax` promise settles exactly once, either resolved with the
argument triple `(data, textStatus, jqXHR)` or rejected with the triple
`(jqXHR, textStatus, errorThrown)`. -/

/-- The settled result of one batch request. -/
inductive AjaxOutcome where
  | success (data status xhr : JVal)
  | failure (xhr status err : JVal)
deriving DecidableEq

/-- Whether an outcome is a rejection. -/
def AjaxOutcome.isFailure : AjaxOutcome → Bool
  | .failure _ _ _ => true
  | _ => false

/-- The response object assembled by `processAjaxResponses`
(the `updateListItemsResponse` typedef, lines 213-222). -/
structure UResponse where
  status : String
  message : JVal
  httpData : JVal
  xhrRequest : JVal
deriving DecidableEq

/-- The body of the `args.forEach(function(reqResponse){ ... })` loop of
`processAjaxResponses` (lines 230-250): push the per-request data when
more than one request was issued, then reclassify status and message. -/
def parStep (isMultiRequest isHttpError : Bool) (hasErr : JVal → Bool)
    (getErr : JVal → String) (response : UResponse) (reqResponse : JVal) :
    UResponse :=
  let response :=
    if isMultiRequest then
      { response with
          httpData := jsPush response.httpData
            (if isHttpError then jsGet reqResponse 2 else jsGet reqResponse 0)
          xhrRequest := jsPush response.xhrRequest (jsGet reqResponse 2) }
    else response
  if isHttpError then
    { response with
        status := "error"
        message := jsOr (jsGet reqResponse 1) (.str "HTTP error.") }
  else if hasErr (jsGet reqResponse 0) then
    { response with
        status := "error"
        message := .str (getErr (jsGet reqResponse 0)) }
  else response

/-- Model of `processAjaxResponses` (lines 184-260 of `updateListItems.js`).

`numRequests` is `updatePromisesList.length`; `reqArgs` is the JavaScript
`arguments` object the `$.when` handler received, as a list of values;
`isHttpError` tells which handler fired.  `hasErr` and `getErr` are the
external collaborators `doesMsgHaveError` / `getMsgError`. -/
def processAjaxResponses (numRequests : Nat) (hasErr : JVal → Bool)
    (getErr : JVal → String) (reqArgs : List JVal) (isHttpError : Bool) :
    UResponse :=
  let isMultiRequest : Bool := numRequests > 1
  let response : UResponse :=
    { status := "success"
      message := .str "Update Successful."
      httpData :=
        if isMultiRequest then .arr []
        else if isHttpError then jsGet (.arr reqArgs) 2 else jsGet (.arr reqArgs) 0
      xhrRequest := if isMultiRequest then .arr [] else jsGet (.arr reqArgs) 2 }
  -- `if (!isMultiRequest) { args = [ args ]; }`
  let args : List JVal := if isMultiRequest then reqArgs else [.arr reqArgs]
  args.foldl (parStep isMultiRequest isHttpError hasErr getErr) response

/-- The first rejected promise of the list, in list order. -/
def firstFailure (outs : List AjaxOutcome) : Option AjaxOutcome :=
  outs.find? AjaxOutcome.isFailure

/-- jQuery `$.when.apply($, updatePromisesList)` over a list of already
settled promises (lines 262-269): if every promise resolved, the master
resolves with one argument per promise — the flat triple when there is a
single promise, else an array-of-three per promise; if any promise
rejected, the master rejects with the argument triple of the first
rejected promise in list order.  Returns `(isHttpError, reqArgs)`. -/
def whenArgs (outs : List AjaxOutcome) : Bool × List JVal :=
  match firstFailure outs with
  | some (.failure x s e) => (true, [x, s, e])
  | _ =>
      match outs with
      | [.success d s x] => (false, [d, s, x])
      | _ => (false, outs.map (fun o =>
          match o with
          | .success d s x => .arr [d, s, x]
          | .failure x s e => .arr [x, s, e]))

/-- The whole resolution step `resolveUpdateListItems` applied to the
settled promises of one dispatch, in `updatePromisesList` (submission)
order. -/
def aggregate (hasErr : JVal → Bool) (getErr : JVal → String)
    (outs : List AjaxOutcome) : UResponse :=
  let wa := whenArgs outs
  processAjaxResponses outs.length hasErr getErr wa.2 wa.1

/-! ### The batch builder -/

/-- Does `pat` occur as a contiguous run inside `cs`?  (Model of the
regular-expression test `/<\/Batch>/.test(xmlUpdateString)`.) -/
def startsWithL : List Char → List Char → Bool
  | [], _ => true
  | _ :: _, [] => false
  | p :: ps, c :: cs => p == c && startsWithL ps cs

/-- See `startsWithL`. -/
def containsL (pat : List Char) : List Char → Bool
  | [] => startsWithL pat []
  | c :: cs => startsWithL pat (c :: cs) || containsL pat cs

/-- The regular-expression test of line 111, `/<\/Batch>/.test(s)`. -/
def hasBatchClose (s : String) : Bool :=
  containsL "</Batch>".toList s.toList

/-- The `while (opt._updates.length && count < opt.batchSize)` loop of
`getBatchUpdateList` (lines 106-109), accumulating the concatenated
descriptor string; returns the string and the remaining queue. -/
def pullLoop (updates : List String) (count b : Int) (acc : String) :
    String × List String :=
  match updates with
  | [] => (acc, [])
  | u :: rest =>
      if count < b then pullLoop rest (count + 1) b (acc ++ u)
      else (acc, u :: rest)

/-- The same drain loop at descriptor granularity: the list of pulled
descriptors instead of their concatenation. -/
def pullList (updates : List String) (count b : Int) :
    List String × List String :=
  match updates with
  | [] => ([], [])
  | u :: rest =>
      if count < b then
        let pr := pullList rest (count + 1) b
        (u :: pr.1, pr.2)
      else ([], u :: rest)

/-- Concatenation of a list of strings (the net effect of the
`xmlUpdateString +=` accumulation at descriptor granularity). -/
def strJoin : List String → String
  | [] => ""
  | x :: rest => x ++ strJoin rest

/-- Line 112: wrap the concatenated updates in a batch envelope unless one
is already present.  The `OnError` directive is the hard-coded literal of
the source; `opt.updateOnError` is never consulted. -/
def wrapIfNeeded (x : String) : String :=
  if hasBatchClose x then x
  else "<Batch OnError=\"Continue\">" ++ x ++ "</Batch>"

/-- Model of `getBatchUpdateList` (lines 101-120): returns the batch payload
string, the drained queue, and whether the queue is now empty (the
`batchProcessingDone = true` assignment of line 116). -/
def getBatchUpdateList (b : Int) (updates : List String) :
    String × List String × Bool :=
  let pr := pullLoop updates 0 b ""
  (wrapIfNeeded pr.1, pr.2, pr.2.isEmpty)

/-- The ceiling division `ceil (n / b)` on naturals (`b > 0`). -/
def ceilDiv (n b : Nat) : Nat := (n + b - 1) / b

/-- The sequence of descriptor groups produced by calling
`getBatchUpdateList` repeatedly until it reports the queue exhausted,
at descriptor granularity.  The fuel argument dominates the number of
rounds; `buildBatches` supplies enough fuel for any `batchSize ≥ 1`. -/
def buildBatchesAux (b : Int) : Nat → List String → List (List String)
  | 0, _ => []
  | fuel + 1, updates =>
      let pr := pullList updates 0 b
      if pr.2.isEmpty then [pr.1]
      else pr.1 :: buildBatchesAux b fuel pr.2

/-- See `buildBatchesAux`. -/
def buildBatches (updates : List String) (b : Int) : List (List String) :=
  buildBatchesAux b (updates.length + 1) updates

/-! ### The dispatch scheduler -/

/-- The caller-configurable options that reach the dispatch loop
(`updateListItems.defaults`, lines 405-415, merged with the caller's
options). -/
structure UpdOptions where
  listName : String := ""
  updateOnError : String := "Continue"
  batchSize : Int := 100
  concurrency : Int := 2
deriving DecidableEq

/-- The mutable closure state of one `updateListItems` dispatch
(lines 96-100): the descriptor queue `opt._updates`, the
`batchProcessingDone` flag, the `updatesInFlight` counter, the identities
of the not-yet-settled ajax promises, `updatePromisesList` (as
`(id, batch payload)` pairs in submission order) and whether
`resolveUpdateListItems` has run. -/
structure DState where
  updates : List String
  batchProcessingDone : Bool
  updatesInFlight : Int
  pending : List Nat
  submitted : List (Nat × String)
  resolved : Bool
deriving DecidableEq

/-- The closure state at the top of the `$.Deferred` body (lines 96-100). -/
def mkInit (q : List String) : DState :=
  { updates := q
    batchProcessingDone := false
    updatesInFlight := 0
    pending := []
    submitted := []
    resolved := false }

/-- Model of `execBatchUpdate` (lines 135-171): while the queue is not exhausted
and the concurrency bound has capacity, build the next batch (the
`getBatchUpdateList()` call inside the `$.ajax` data), issue the request,
bump `updatesInFlight`, and recurse.  Returns the final state together
with the list of states right after each launch (for stating "at any
point" invariants).  The fuel dominates the recursion depth; callers pass
`updates.length + 1`, which suffices whenever `batchSize ≥ 1`.

`launchOne` is one launch (lines 141-165): evaluating the `$.ajax` call
evaluates `getBatchUpdateList()` inside the request body (draining the
queue and possibly setting `batchProcessingDone`), then
`updatesInFlight++` and the new promise is registered
(`.always(onUpdateDone)`, `updatePromisesList.push`). -/
def launchOne (o : UpdOptions) (s : DState) : DState :=
  let g := getBatchUpdateList o.batchSize s.updates
  let id := s.submitted.length
  { s with
      updates := g.2.1
      batchProcessingDone := s.batchProcessingDone || g.2.2
      updatesInFlight := s.updatesInFlight + 1
      pending := s.pending ++ [id]
      submitted := s.submitted ++ [(id, g.1)] }

def execBatchUpdate (o : UpdOptions) : Nat → DState → DState × List DState
  | 0, s => (s, [])
  | fuel + 1, s =>
      -- line 137: `if (batchProcessingDone || updatesInFlight >= maxConcurrentUpds)`
      if s.batchProcessingDone = true ∨ s.updatesInFlight ≥ o.concurrency then (s, [])
      else
        let s2 := launchOne o s
        -- line 168: `if (!batchProcessingDone) { execBatchUpdate(); }`
        if s2.batchProcessingDone = true then (s2, [s2])
        else
          let r := execBatchUpdate o fuel s2
          (r.1, s2 :: r.2)

/-- Model of `onUpdateDone` (lines 121-134), fired by `updatePromise.always`: the
settled promise `id` leaves the pending set, `updatesInFlight` is
decremented; if everything is done the overall promise is resolved,
otherwise freed capacity triggers another `execBatchUpdate`.  The
`always` callback receives the settled values `outc` but never reads
them.  Also returns the intermediate states. -/
def onUpdateDone (o : UpdOptions) (outc : AjaxOutcome) (id : Nat)
    (s : DState) : DState × List DState :=
  let s1 : DState :=
    { s with
        updatesInFlight := s.updatesInFlight - 1
        pending := s.pending.erase id }
  if s1.updatesInFlight = 0 ∧ s1.batchProcessingDone = true then
    let s2 : DState := { s1 with resolved := true }
    (s2, [s1, s2])
  else if s1.updatesInFlight < o.concurrency then
    let r := execBatchUpdate o (s1.updates.length + 1) s1
    (r.1, s1 :: r.2)
  else (s1, [s1])

/-- The state after the initial `execBatchUpdate()` call of line 272. -/
def initRun (o : UpdOptions) (q : List String) : DState :=
  (execBatchUpdate o (q.length + 1) (mkInit q)).1

/-- Run a completion schedule: `sched` lists, in completion order, the
ids of the ajax promises as they settle; the transport behaviour `f`
assigns each id its settled outcome.  Returns the final state and all
intermediate states. -/
def runSchedT (o : UpdOptions) (f : Nat → AjaxOutcome) :
    List Nat → DState → DState × List DState
  | [], s => (s, [])
  | id :: rest, s =>
      let r1 := onUpdateDone o (f id) id s
      let r2 := runSchedT o f rest r1.1
      (r2.1, r1.2 ++ r2.2)

/-- A schedule is valid when every completed id is a pending request at
the moment it completes (each ajax promise settles exactly once). -/
def validSchedB (o : UpdOptions) (f : Nat → AjaxOutcome) :
    DState → List Nat → Bool
  | _, [] => true
  | s, id :: rest =>
      s.pending.contains id &&
        validSchedB o f (onUpdateDone o (f id) id s).1 rest

/-- Every state the dispatch passes through: the initial closure state,
each state during the initial fan-out, and each state during every
completion callback. -/
def dispatchTrace (o : UpdOptions) (f : Nat → AjaxOutcome) (q : List String)
    (sched : List Nat) : List DState :=
  let s0 := mkInit q
  let r1 := execBatchUpdate o (q.length + 1) s0
  let r2 := runSchedT o f sched r1.1
  s0 :: (r1.2 ++ r2.2)

/-- The final state of a dispatch under a completion schedule. -/
def finalState (o : UpdOptions) (f : Nat → AjaxOutcome) (q : List String)
    (sched : List Nat) : DState :=
  (runSchedT o f sched (initRun o q)).1

/-- The overall observable result: once the dispatch has resolved, the
aggregated response over the settled values of `updatePromisesList` in
submission order; `none` while the deferred is still unsettled. -/
def dispatchResult (o : UpdOptions) (hasErr : JVal → Bool)
    (getErr : JVal → String) (f : Nat → AjaxOutcome) (q : List String)
    (sched : List Nat) : Option UResponse :=
  let sf := finalState o f q sched
  if sf.resolved then
    some (aggregate hasErr getErr (sf.submitted.map (fun pr => f pr.1)))
  else none


/-! ### The option-preprocessing prefix and `getUpdateArray`

`updateListItems` begins (line 80) with
`opt = $.extend({}, updateListItems.defaults, options, { counter: 1 })`
and then normalizes the options and builds the update-descriptor array
via `getUpdateArray(opt)` (lines 287-402).  Because the interesting
question here is which caller-visible objects get mutated, this part is
embedded over an explicit heap of JavaScript objects: an `HVal` is a
primitive value or a reference into the heap; arrays and plain objects
live in heap cells. -/

/-- A JavaScript value held in a variable or an object field: primitives
by value, objects and arrays by reference. -/
inductive HVal where
  | vstr : String → HVal
  | vnum : Int → HVal
  | vbool : Bool → HVal
  | vnull : HVal
  | vundefined : HVal
  | href : Nat → HVal
deriving DecidableEq

/-- A heap cell: a plain object (ordered field list) or an array. -/
inductive HObj where
  | hobj : List (String × HVal) → HObj
  | harr : List HVal → HObj
deriving DecidableEq

/-- The object heap. -/
abbrev Heap := List HObj

/-- Dereference (out-of-range references never occur in well-formed
inputs; they read as an empty object). -/
def heapGet (h : Heap) (r : Nat) : HObj := h.getD r (.hobj [])

/-- Overwrite one heap cell. -/
def heapSet (h : Heap) (r : Nat) (o : HObj) : Heap := h.set r o

/-- Allocate a fresh cell at the end of the heap. -/
def heapAlloc (h : Heap) (o : HObj) : Heap × Nat := (h ++ [o], h.length)

/-- Read a field of an object field-list (`undefined` when absent). -/
def fieldGet (fs : List (String × HVal)) (k : String) : HVal :=
  match fs.find? (fun p => p.1 == k) with
  | some p => p.2
  | none => .vundefined

/-- Write a field of an object field-list, keeping first-write field
order as JavaScript does. -/
def fieldSet (fs : List (String × HVal)) (k : String) (v : HVal) :
    List (String × HVal) :=
  if fs.any (fun p => p.1 == k) then
    fs.map (fun p => if p.1 == k then (k, v) else p)
  else fs ++ [(k, v)]

/-- Read `obj.k` through a reference. -/
def objGet (h : Heap) (r : Nat) (k : String) : HVal :=
  match heapGet h r with
  | .hobj fs => fieldGet fs k
  | .harr _ => .vundefined

/-- Write `obj.k = v` through a reference (only ever applied to plain
objects by the embedded code). -/
def objSet (h : Heap) (r : Nat) (k : String) (v : HVal) : Heap :=
  match heapGet h r with
  | .hobj fs => heapSet h r (.hobj (fieldSet fs k v))
  | .harr _ => h

/-- JavaScript truthiness of an `HVal`. -/
def hTruthy : HVal → Bool
  | .vstr s => s ≠ ""
  | .vnum n => n ≠ 0
  | .vbool b => b
  | .vnull => false
  | .vundefined => false
  | .href _ => true

/-- JavaScript `a || b` on `HVal`. -/
def hOr (a b : HVal) : HVal := if hTruthy a then a else b

/-- JavaScript `typeof` (note `typeof null === "object"`, and arrays are
`"object"` too — which is why the `$.isArray(options.updates[0])` branch
of `getUpdateArray` is unreachable). -/
def hTypeof : HVal → String
  | .vstr _ => "string"
  | .vnum _ => "number"
  | .vbool _ => "boolean"
  | .vnull => "object"
  | .vundefined => "undefined"
  | .href _ => "object"

/-- Model of `$.isArray`. -/
def hIsArray (h : Heap) (v : HVal) : Bool :=
  match v with
  | .href r => match heapGet h r with | .harr _ => true | .hobj _ => false
  | _ => false

/-- String coercion of an `HVal` as performed by the `+` concatenations
in `getUpdateArray` (arrays render as their comma-joined elements, plain
objects as `[object Object]`; the fuel bounds nesting depth and exceeds
it on every acyclic heap). -/
def hToString (h : Heap) : Nat → HVal → String
  | _, .vstr s => s
  | _, .vnum n => toString n
  | _, .vbool b => if b then "true" else "false"
  | _, .vnull => "null"
  | _, .vundefined => "undefined"
  | 0, .href _ => ""
  | fuel + 1, .href r =>
      match heapGet h r with
      | .hobj _ => "[object Object]"
      | .harr xs => String.intercalate "," (xs.map (hToString h fuel))

/-- Indexing `v[i]` on a reference to an array (or object with numeric keys). -/
def hIndex (h : Heap) (v : HVal) (i : Nat) : HVal :=
  match v with
  | .href r =>
      match heapGet h r with
      | .harr xs => xs.getD i .vundefined
      | .hobj fs => fieldGet fs (toString i)
  | _ => .vundefined

/-- The elements of an array value. -/
def hElems (h : Heap) (v : HVal) : List HVal :=
  match v with
  | .href r => match heapGet h r with | .harr xs => xs | .hobj _ => []
  | _ => []

/-- A `for (col in v)` own-enumerable traversal: field list for a plain
object, index keys for an array. -/
def forInPairs (h : Heap) (v : HVal) : List (String × HVal) :=
  match v with
  | .href r =>
      match heapGet h r with
      | .hobj fs => fs
      | .harr xs => (List.range xs.length).map (fun i => (toString i, xs.getD i .vundefined))
  | _ => []

/-- Model of `x.push(v)` through a reference. -/
def hArrPush (h : Heap) (v add : HVal) : Heap :=
  match v with
  | .href r =>
      match heapGet h r with
      | .harr xs => heapSet h r (.harr (xs ++ [add]))
      | .hobj _ => h
  | _ => h

/-- The `options.counter++` increment: steps a numeric counter. -/
def hNumSucc : HVal → HVal
  | .vnum n => .vnum (n + 1)
  | v => v

/-- The inner `for (col in updArray[i])` of `processArrayOfObjects`
(lines 303-312): concatenate one `<Field .../>` per own property. -/
def fieldConcat (h : Heap) (pairs : List (String × HVal)) : String :=
  pairs.foldl
    (fun acc p =>
      acc ++ "<Field Name=\"" ++ p.1 ++ "\">" ++
        hToString h (h.length + 1) p.2 ++ "</Field>") ""

/-- The `<Method ID="counter" Cmd="updateType">...</Method>` wrapper
(lines 318-321 and 352-355). -/
def methodWrap (h : Heap) (optRef : Nat) (thisUpd : String) : String :=
  "<Method ID=\"" ++ hToString h (h.length + 1) (objGet h optRef "counter") ++
    "\" Cmd=\"" ++ hToString h (h.length + 1) (objGet h optRef "updateType") ++
    "\">" ++ thisUpd ++ "</Method>"

/-- Model of `processArrayOfObjects` (lines 292-329): one `<Method>` per element
with a non-empty field set, bumping `options.counter` each time.  Returns
the updated heap and the accumulated update strings. -/
def processArrayOfObjects (optRef : Nat) :
    List HVal → Heap → List String → Heap × List String
  | [], h, ups => (h, ups)
  | e :: rest, h, ups =>
      let thisUpd := fieldConcat h (forInPairs h e)
      if thisUpd ≠ "" then
        processArrayOfObjects optRef rest
          (objSet h optRef "counter" (hNumSucc (objGet h optRef "counter")))
          (ups ++ [methodWrap h optRef thisUpd])
      else processArrayOfObjects optRef rest h ups

/-- Model of `processArrayOfArrays` (lines 334-361): one single `<Method>` for the
whole pair-list, bumping `options.counter` once if it was non-empty. -/
def processArrayOfArrays (optRef : Nat) (updElems : List HVal) (h : Heap)
    (ups : List String) : Heap × List String :=
  let thisUpd := updElems.foldl
    (fun acc e =>
      if hIsArray h e then
        acc ++ "<Field Name=\"" ++ hToString h (h.length + 1) (hIndex h e 0) ++
          "\">" ++ hToString h (h.length + 1) (hIndex h e 1) ++ "</Field>"
      else acc) ""
  if thisUpd ≠ "" then
    (objSet h optRef "counter" (hNumSucc (objGet h optRef "counter")),
     ups ++ [methodWrap h optRef thisUpd])
  else (h, ups)

/-- Coercion used when `options.updates` is an `Array<String>`: the
elements are pushed as-is (line 389); non-string elements would later be
coerced by the `xmlUpdateString +=` concatenation, so they coerce here. -/
def hValToUpdate (h : Heap) (v : HVal) : String :=
  match v with
  | .vstr s => s
  | other => hToString h (h.length + 1) other

/-- Model of `getUpdateArray` (lines 287-402), threading the heap: the
backwards-compatibility branch pushes `["ID", options.ID]` onto the
caller's `valuepairs` array through the shared reference (line 368). -/
def getUpdateArray (optRef : Nat) (h : Heap) : Heap × List String :=
  let updatesV := objGet h optRef "updates"
  -- line 366: `if (!options.updates && options.ID && options.valuepairs)`
  if !hTruthy updatesV && hTruthy (objGet h optRef "ID") &&
      hTruthy (objGet h optRef "valuepairs") then
    let pr := heapAlloc h (.harr [.vstr "ID", objGet h optRef "ID"])
    let h2 := hArrPush pr.1 (objGet pr.1 optRef "valuepairs") (.href pr.2)
    processArrayOfArrays optRef (hElems h2 (objGet h2 optRef "valuepairs")) h2 []
  else if hTypeof updatesV == "string" then
    -- line 373: a string is pushed as-is
    (h, [hValToUpdate h updatesV])
  else if hIsArray h updatesV && !(hElems h updatesV).isEmpty then
    -- line 377: dispatch on `typeof options.updates[0]`
    if hTypeof (hIndex h updatesV 0) == "object" then
      processArrayOfObjects optRef (hElems h updatesV) h []
    else if hTypeof (hIndex h updatesV 0) == "string" then
      (h, (hElems h updatesV).map (hValToUpdate h))
    else if hIsArray h (hIndex h updatesV 0) then
      -- unreachable: arrays have `typeof === "object"` and are caught above
      processArrayOfArrays optRef (hElems h updatesV) h []
    else (h, [])
  else (h, [])

/-- The default options `updateListItems.defaults` (lines 405-415). -/
def updateListItemsDefaults : List (String × HVal) :=
  [("listName", .vstr ""), ("webURL", .vstr ""), ("async", .vbool true),
   ("completefunc", .vnull), ("updates", .vstr ""),
   ("updateType", .vstr "Update"), ("updateOnError", .vstr "Continue"),
   ("batchSize", .vnum 100), ("concurrency", .vnum 2)]

/-- Model of `$.extend(base, src)` on field lists: source fields override, except
that `undefined` source values are skipped (jQuery semantics). -/
def extendFields (base : List (String × HVal)) :
    List (String × HVal) → List (String × HVal)
  | [] => base
  | (k, v) :: rest =>
      extendFields (if v == .vundefined then base else fieldSet base k v) rest

/-- The merged option fields of line 80:
`$.extend({}, updateListItems.defaults, options, { counter: 1 })`. -/
def mergedOptFields (callerFields : List (String × HVal)) :
    List (String × HVal) :=
  extendFields (extendFields updateListItemsDefaults callerFields)
    [("counter", .vnum 1)]

/-- The option-processing prefix of `updateListItems` (lines 78-93):
build the merged `opt` object as a fresh heap cell, default or
slash-terminate `opt.webURL` (`siteUrl` stands for the external
`getSiteUrl()`), apply the `batchCmd` backwards-compatibility alias, and
run `getUpdateArray`.  Returns the final heap, the reference to `opt`,
and the update-descriptor queue `opt._updates`. -/
def updateListItemsPrep (siteUrl : String) (h : Heap) (optionsRef : Nat) :
    Heap × Nat × List String :=
  let callerFields := match heapGet h optionsRef with
    | .hobj fs => fs
    | .harr _ => []
  let pr := heapAlloc h (.hobj (mergedOptFields callerFields))
  let h1 := pr.1
  let optRef := pr.2
  let h2 :=
    if !hTruthy (objGet h1 optRef "webURL") then
      objSet h1 optRef "webURL" (.vstr siteUrl)
    else
      match objGet h1 optRef "webURL" with
      | .vstr s => if s.endsWith "/" then h1 else objSet h1 optRef "webURL" (.vstr (s ++ "/"))
      | _ => h1
  let h3 := objSet h2 optRef "updateType"
    (hOr (objGet h2 optRef "batchCmd") (objGet h2 optRef "updateType"))
  let gr := getUpdateArray optRef h3
  (gr.1, optRef, gr.2)

/-- The backwards-compatibility condition of line 366, evaluated on the
merged option fields. -/
def bcCondB (fs : List (String × HVal)) : Bool :=
  !hTruthy (fieldGet fs "updates") && hTruthy (fieldGet fs "ID") &&
    hTruthy (fieldGet fs "valuepairs")

/-! ### Lemmas about the batch builder -/

theorem strJoin_append (a b : List String) :
    strJoin (a ++ b) = strJoin a ++ strJoin b := by
  induction a with
  | nil => simp [strJoin]
  | cons x rest ih => simp [strJoin, ih, String.append_assoc]

theorem pullLoop_eq_pullList (b : Int) :
    ∀ (u : List String) (count : Int) (acc : String),
      pullLoop u count b acc =
        (acc ++ strJoin (pullList u count b).1, (pullList u count b).2)
  | [], count, acc => by simp [pullLoop, pullList, strJoin]
  | x :: rest, count, acc => by
      by_cases h : count < b
      · simp only [pullLoop, pullList, if_pos h,
          pullLoop_eq_pullList b rest (count + 1) (acc ++ x)]
        simp [strJoin, String.append_assoc]
      · simp [pullLoop, pullList, if_neg h, strJoin]

theorem pullList_eq_take_drop (b : Int) :
    ∀ (u : List String) (count : Int),
      pullList u count b = (u.take (b - count).toNat, u.drop (b - count).toNat)
  | [], count => by simp [pullList]
  | x :: rest, count => by
      by_cases h : count < b
      · have hk : (b - count).toNat = ((b - (count + 1)).toNat) + 1 := by omega
        simp only [pullList, if_pos h, pullList_eq_take_drop b rest (count + 1), hk]
        simp [List.take, List.drop]
      · have hk : (b - count).toNat = 0 := by omega
        simp [pullList, if_neg h, hk]

theorem buildBatchesAux_spec (b : Int) (hb : 1 ≤ b) :
    ∀ (fuel : Nat) (u : List String), u.length < fuel →
      (buildBatchesAux b fuel u).join = u ∧
      (buildBatchesAux b fuel u).length =
        (if u.length = 0 then 1 else ceilDiv u.length b.toNat) := by
  intro fuel
  induction fuel with
  | zero => intro u hu; omega
  | succ fuel ih =>
      intro u hu
      have hbt : 1 ≤ b.toNat := by omega
      have hpl := pullList_eq_take_drop b u 0
      simp only [Int.sub_zero] at hpl
      by_cases hrest : (u.drop b.toNat).isEmpty = true
      · have hle : u.length ≤ b.toNat := by
          rw [List.isEmpty_iff, List.drop_eq_nil_iff] at hrest
          exact hrest
        have htake : u.take b.toNat = u := List.take_of_length_le hle
        simp only [buildBatchesAux, hpl, hrest, if_pos]
        refine ⟨by simp [htake], ?_⟩
        by_cases hz : u.length = 0
        · simp [hz]
        · have h1 : (u.length + b.toNat - 1) / b.toNat = 1 := by
            have := Nat.div_eq_of_lt_le
              (by omega : 1 * b.toNat ≤ u.length + b.toNat - 1)
              (by omega : u.length + b.toNat - 1 < (1 + 1) * b.toNat)
            omega
          simp [hz, ceilDiv, h1]
      · have hgt : b.toNat < u.length := by
          rw [List.isEmpty_iff] at hrest
          have := (not_congr List.drop_eq_nil_iff).mp hrest
          omega
        have hdl : (u.drop b.toNat).length = u.length - b.toNat :=
          List.length_drop b.toNat u
        have ihd := ih (u.drop b.toNat) (by omega)
        simp only [buildBatchesAux, hpl, hrest, if_neg, Bool.false_eq_true,
          not_false_eq_true]
        constructor
        · simp [List.join, ihd.1, List.take_append_drop]
        · have hz2 : ¬((u.drop b.toNat).length = 0) := by omega
          simp only [List.length_cons, ihd.2, hdl, if_neg (by omega : ¬(u.length - b.toNat = 0)),
            if_neg (by omega : ¬(u.length = 0))]
          unfold ceilDiv
          have h4 : u.length + b.toNat - 1 = ((u.length - b.toNat) + b.toNat - 1) + b.toNat := by
            omega
          rw [h4, Nat.add_div_right _ (by omega : 0 < b.toNat)]

theorem buildBatchesAux_fuel (b : Int) (hb : 1 ≤ b) :
    ∀ (f1 : Nat), ∀ (f2 : Nat) (u : List String), u.length < f1 → u.length < f2 →
      buildBatchesAux b f1 u = buildBatchesAux b f2 u := by
  intro f1
  induction f1 with
  | zero => intro f2 u h1 h2; omega
  | succ f1 ih =>
      intro f2 u h1 h2
      match f2 with
      | 0 => omega
      | f2 + 1 =>
          have hpl := pullList_eq_take_drop b u 0
          simp only [Int.sub_zero] at hpl
          by_cases hrest : (u.drop b.toNat).isEmpty = true
          · simp [buildBatchesAux, hpl, hrest]
          · have hgt : b.toNat < u.length := by
              rw [List.isEmpty_iff] at hrest
              have := (not_congr List.drop_eq_nil_iff).mp hrest
              omega
            have hbt : 1 ≤ b.toNat := by omega
            have hdl : (u.drop b.toNat).length = u.length - b.toNat :=
              List.length_drop b.toNat u
            simp only [buildBatchesAux, hpl, hrest, Bool.false_eq_true,
              if_neg, not_false_eq_true]
            rw [ih f2 (u.drop b.toNat) (by omega) (by omega)]

theorem buildBatches_step (b : Int) (hb : 1 ≤ b) (u : List String) :
    buildBatches u b =
      (pullList u 0 b).1 ::
        (if (pullList u 0 b).2.isEmpty then []
         else buildBatches (pullList u 0 b).2 b) := by
  have hpl := pullList_eq_take_drop b u 0
  simp only [Int.sub_zero] at hpl
  unfold buildBatches
  by_cases hrest : (u.drop b.toNat).isEmpty = true
  · simp [buildBatchesAux, hpl, hrest]
  · have hgt : b.toNat < u.length := by
      rw [List.isEmpty_iff] at hrest
      have := (not_congr List.drop_eq_nil_iff).mp hrest
      omega
    have hbt : 1 ≤ b.toNat := by omega
    have hdl : (u.drop b.toNat).length = u.length - b.toNat :=
      List.length_drop b.toNat u
    simp only [buildBatchesAux, hpl, hrest, Bool.false_eq_true, if_neg,
      not_false_eq_true, List.cons.injEq, true_and]
    exact buildBatchesAux_fuel b hb u.length ((u.drop b.toNat).length + 1)
      (u.drop b.toNat) (by omega) (by omega)

/-- Claim C1 — as stated the claim is false: on an empty queue the
dispatcher still builds one (empty) batch, so the number of batches is
`1`, not `ceil(0 / b) = 0`.  (Concretely: `execBatchUpdate` runs its
body once, and `getBatchUpdateList` pulls zero descriptors, wraps the
empty string and reports the queue exhausted.) -/
theorem C1_counterexample :
    (buildBatches ([] : List String) 1).length = 1 ∧ ceilDiv 0 1 = 0 := by
  constructor
  · rfl
  · rfl

/-- Claim C1 (amended) — for every queue `u` and every batch size `b ≥ 1`,
repeated calls to `getBatchUpdateList` build `ceil(n / b)` batches when
`n = |u| ≥ 1` and exactly one (empty) batch when `n = 0`, and
concatenating the batches' descriptors in build order reproduces the
original queue exactly: no descriptor lost, duplicated or reordered. -/
theorem C1_batch_count_and_order (u : List String) (b : Int) (hb : 1 ≤ b) :
    (buildBatches u b).join = u ∧
    (buildBatches u b).length =
      (if u.length = 0 then 1 else ceilDiv u.length b.toNat) :=
  buildBatchesAux_spec b hb (u.length + 1) u (by omega)

/-- Witness for `C1_batch_count_and_order` at `n = 250`, `b = 100`
(the spec's own scenario: 3 batches of sizes 100, 100, 50). -/
theorem C1_batch_count_and_order_witness :
    (buildBatches ((List.range 250).map toString) 100).join
        = (List.range 250).map toString ∧
    (buildBatches ((List.range 250).map toString) 100).length = 3 := by
  have h := C1_batch_count_and_order ((List.range 250).map toString) 100
    (by norm_num)
  refine ⟨h.1, ?_⟩
  rw [h.2]
  simp only [List.length_map, List.length_range]
  decide

/-! ### Lemmas about the dispatch scheduler -/

theorem launchOne_proj (o : UpdOptions) (s : DState) :
    (launchOne o s).updatesInFlight = s.updatesInFlight + 1 ∧
    (launchOne o s).pending = s.pending ++ [s.submitted.length] ∧
    (launchOne o s).submitted
      = s.submitted ++ [(s.submitted.length, (getBatchUpdateList o.batchSize s.updates).1)] ∧
    (launchOne o s).resolved = s.resolved ∧
    (launchOne o s).updates = (getBatchUpdateList o.batchSize s.updates).2.1 ∧
    (launchOne o s).batchProcessingDone
      = (s.batchProcessingDone || (getBatchUpdateList o.batchSize s.updates).2.2) := by
  constructor <;> simp [launchOne]

theorem execBatchUpdate_inFlight_le (o : UpdOptions) :
    ∀ (fuel : Nat) (s : DState), s.updatesInFlight ≤ o.concurrency →
      (execBatchUpdate o fuel s).1.updatesInFlight ≤ o.concurrency ∧
      ∀ t ∈ (execBatchUpdate o fuel s).2, t.updatesInFlight ≤ o.concurrency := by
  intro fuel
  induction fuel with
  | zero => intro s hs; simpa [execBatchUpdate] using hs
  | succ fuel ih =>
      intro s hs
      by_cases hg : s.batchProcessingDone = true ∨ s.updatesInFlight ≥ o.concurrency
      · simpa [execBatchUpdate, hg] using hs
      · have hlt : s.updatesInFlight < o.concurrency := by
          push_neg at hg; exact hg.2
        have h2 : (launchOne o s).updatesInFlight ≤ o.concurrency := by
          simp only [launchOne]; omega
        by_cases hd : (launchOne o s).batchProcessingDone = true
        · simp only [execBatchUpdate, if_neg hg, if_pos hd]
          exact ⟨h2, by simpa using h2⟩
        · have ihr := ih (launchOne o s) h2
          simp only [execBatchUpdate, if_neg hg, if_neg hd]
          refine ⟨ihr.1, ?_⟩
          intro t ht
          simp only [List.mem_cons] at ht
          rcases ht with rfl | ht
          · exact h2
          · exact ihr.2 t ht

theorem onUpdateDone_inFlight_le (o : UpdOptions) (outc : AjaxOutcome)
    (id : Nat) (s : DState) (hs : s.updatesInFlight ≤ o.concurrency) :
    (onUpdateDone o outc id s).1.updatesInFlight ≤ o.concurrency ∧
    ∀ t ∈ (onUpdateDone o outc id s).2, t.updatesInFlight ≤ o.concurrency := by
  unfold onUpdateDone
  set s1 : DState :=
    { s with
        updatesInFlight := s.updatesInFlight - 1
        pending := s.pending.erase id } with hs1
  have h1 : s1.updatesInFlight ≤ o.concurrency := by
    simp only [hs1]; omega
  by_cases hr : s1.updatesInFlight = 0 ∧ s1.batchProcessingDone = true
  · simp only [if_pos hr]
    refine ⟨h1, ?_⟩
    intro t ht
    simp only [List.mem_cons, List.mem_singleton, List.not_mem_nil] at ht
    rcases ht with rfl | rfl | hf
    · exact h1
    · exact h1
    · exact hf.elim
  · by_cases hc : s1.updatesInFlight < o.concurrency
    · have he := execBatchUpdate_inFlight_le o (s1.updates.length + 1) s1 h1
      simp only [if_neg hr, if_pos hc]
      refine ⟨he.1, ?_⟩
      intro t ht
      simp only [List.mem_cons] at ht
      rcases ht with rfl | ht
      · exact h1
      · exact he.2 t ht
    · simp only [if_neg hr, if_neg hc]
      refine ⟨h1, ?_⟩
      intro t ht
      simp only [List.mem_singleton] at ht
      subst ht
      exact h1

theorem runSchedT_inFlight_le (o : UpdOptions) (f : Nat → AjaxOutcome) :
    ∀ (sched : List Nat) (s : DState), s.updatesInFlight ≤ o.concurrency →
      (runSchedT o f sched s).1.updatesInFlight ≤ o.concurrency ∧
      ∀ t ∈ (runSchedT o f sched s).2, t.updatesInFlight ≤ o.concurrency := by
  intro sched
  induction sched with
  | nil => intro s hs; simpa [runSchedT] using hs
  | cons id rest ih =>
      intro s hs
      have h1 := onUpdateDone_inFlight_le o (f id) id s hs
      have h2 := ih (onUpdateDone o (f id) id s).1 h1.1
      simp only [runSchedT]
      refine ⟨h2.1, ?_⟩
      intro t ht
      rcases List.mem_append.mp ht with ht | ht
      · exact h1.2 t ht
      · exact h2.2 t ht

/-- Claim C3 — for every configuration with `concurrency = c ≥ 1`, every
queue, every transport behaviour and every completion schedule, the
`updatesInFlight` counter never exceeds `c` at any state the dispatch
passes through (`dispatchTrace` lists the state after every mutation of
the counter: the initial state, each state during the initial fan-out,
and each state during every completion callback; between two listed
states the counter is constant). -/
theorem C3_inflight_never_exceeds_concurrency (o : UpdOptions)
    (f : Nat → AjaxOutcome) (q : List String) (sched : List Nat)
    (hc : 1 ≤ o.concurrency) :
    ∀ t ∈ dispatchTrace o f q sched, t.updatesInFlight ≤ o.concurrency := by
  intro t ht
  have h0 : (mkInit q).updatesInFlight ≤ o.concurrency := by
    simp only [mkInit]; omega
  have he := execBatchUpdate_inFlight_le o (q.length + 1) (mkInit q) h0
  have hr := runSchedT_inFlight_le o f sched
    (execBatchUpdate o (q.length + 1) (mkInit q)).1 he.1
  simp only [dispatchTrace, List.mem_cons, List.mem_append] at ht
  rcases ht with rfl | ht | ht
  · exact h0
  · exact he.2 t ht
  · exact hr.2 t ht

/-- Witness for `C3_inflight_never_exceeds_concurrency`: the spec's own
scenario shape (3 batches, `concurrency = 2`), checked on its whole
trace. -/
theorem C3_inflight_never_exceeds_concurrency_witness :
    ((dispatchTrace { batchSize := 1 }
        (fun _ => AjaxOutcome.success .jsUndefined .jsUndefined .jsUndefined)
        ["u1", "u2", "u3"] [0, 1, 2]).map
      (fun t => t.updatesInFlight)).all (fun n => n ≤ 2) = true := by
  have h := C3_inflight_never_exceeds_concurrency { batchSize := 1 }
    (fun _ => AjaxOutcome.success .jsUndefined .jsUndefined .jsUndefined)
    ["u1", "u2", "u3"] [0, 1, 2] (by decide)
  rw [List.all_eq_true]
  intro n hn
  rcases List.mem_map.mp hn with ⟨t, ht, rfl⟩
  simpa using h t ht

theorem execBatchUpdate_state_facts (o : UpdOptions) :
    ∀ (fuel : Nat) (s : DState),
      (execBatchUpdate o fuel s).1.resolved = s.resolved ∧
      (s.updatesInFlight = (s.pending.length : Int) →
        (execBatchUpdate o fuel s).1.updatesInFlight
          = ((execBatchUpdate o fuel s).1.pending.length : Int)) ∧
      (∃ l, (execBatchUpdate o fuel s).1.pending = s.pending ++ l) ∧
      (s.batchProcessingDone = false → s.updatesInFlight < o.concurrency →
        0 < fuel → (execBatchUpdate o fuel s).1.pending ≠ []) ∧
      (s.batchProcessingDone = true → (execBatchUpdate o fuel s).1 = s) := by
  intro fuel
  induction fuel with
  | zero =>
      intro s
      refine ⟨rfl, fun h => h, ⟨[], by simp [execBatchUpdate]⟩,
        fun _ _ h => by omega, fun _ => rfl⟩
  | succ fuel ih =>
      intro s
      by_cases hg : s.batchProcessingDone = true ∨ s.updatesInFlight ≥ o.concurrency
      · have he : execBatchUpdate o (fuel + 1) s = (s, []) := by
          simp only [execBatchUpdate, if_pos hg]
        refine ⟨by rw [he], fun h => by rw [he]; exact h,
          ⟨[], by rw [he]; simp⟩, ?_, fun _ => by rw [he]⟩
        intro h1 h2 _
        rcases hg with hg | hg
        · rw [h1] at hg; exact absurd hg (by simp)
        · omega
      · by_cases hd : (launchOne o s).batchProcessingDone = true
        · have he : execBatchUpdate o (fuel + 1) s = (launchOne o s, [launchOne o s]) := by
            simp only [execBatchUpdate, if_neg hg, if_pos hd]
          refine ⟨by rw [he]; simp [launchOne], ?_,
            ⟨[s.submitted.length], by rw [he]; simp [launchOne]⟩, ?_, ?_⟩
          · intro h
            rw [he]
            simp only [launchOne, List.length_append, List.length_singleton]
            push_cast
            omega
          · intro _ _ _
            rw [he]
            simp [launchOne]
          · intro hc
            exact absurd (Or.inl hc) hg
        · have ihr := ih (launchOne o s)
          have he : execBatchUpdate o (fuel + 1) s
              = ((execBatchUpdate o fuel (launchOne o s)).1,
                 launchOne o s :: (execBatchUpdate o fuel (launchOne o s)).2) := by
            simp only [execBatchUpdate, if_neg hg, if_neg hd]
          refine ⟨?_, ?_, ?_, ?_, ?_⟩
          · rw [he, ihr.1]; simp [launchOne]
          · intro h
            rw [he]
            apply ihr.2.1
            simp only [launchOne, List.length_append, List.length_singleton]
            push_cast
            omega
          · rcases ihr.2.2.1 with ⟨l, hl⟩
            refine ⟨s.submitted.length :: l, ?_⟩
            rw [he, hl]
            simp [launchOne]
          · intro _ _ _
            rcases ihr.2.2.1 with ⟨l, hl⟩
            rw [he, hl]
            simp [launchOne]
          · intro hc
            exact absurd (Or.inl hc) hg

theorem onUpdateDone_outcome_irrel (o : UpdOptions) (a b : AjaxOutcome)
    (id : Nat) (s : DState) :
    onUpdateDone o a id s = onUpdateDone o b id s := rfl

theorem runSchedT_outcome_irrel (o : UpdOptions) (f g : Nat → AjaxOutcome) :
    ∀ (sched : List Nat) (s : DState),
      runSchedT o f sched s = runSchedT o g sched s := by
  intro sched
  induction sched with
  | nil => intro s; rfl
  | cons id rest ih =>
      intro s
      simp only [runSchedT, onUpdateDone_outcome_irrel o (f id) (g id) id s, ih]

theorem onUpdateDone_liveness (o : UpdOptions) (outc : AjaxOutcome)
    (id : Nat) (s : DState) (hc : 1 ≤ o.concurrency)
    (hmem : id ∈ s.pending)
    (hinv : s.updatesInFlight = (s.pending.length : Int))
    (hres : s.resolved = false) :
    (onUpdateDone o outc id s).1.updatesInFlight
      = (((onUpdateDone o outc id s).1.pending.length : Int)) ∧
    ((onUpdateDone o outc id s).1.resolved = false →
      (onUpdateDone o outc id s).1.pending ≠ []) ∧
    ((onUpdateDone o outc id s).1.resolved = true →
      (onUpdateDone o outc id s).1.pending = [] ∧
      (onUpdateDone o outc id s).1.batchProcessingDone = true) := by
  have hlen : (s.pending.erase id).length = s.pending.length - 1 :=
    List.length_erase_of_mem hmem
  have hpos : 1 ≤ s.pending.length := List.length_pos.mpr (by
    intro hnil; rw [hnil] at hmem; exact absurd hmem (List.not_mem_nil id))
  unfold onUpdateDone
  set s1 : DState :=
    { s with
        updatesInFlight := s.updatesInFlight - 1
        pending := s.pending.erase id } with hs1
  have hinv1 : s1.updatesInFlight = (s1.pending.length : Int) := by
    simp only [hs1, hlen]
    push_cast [hpos]
    omega
  by_cases hr : s1.updatesInFlight = 0 ∧ s1.batchProcessingDone = true
  · simp only [if_pos hr]
    have hnil : s1.pending = [] := by
      have := hinv1
      rw [hr.1] at this
      exact List.length_eq_zero.mp (by exact_mod_cast this.symm)
    exact ⟨by simpa [hnil] using hinv1, fun h => by simp at h,
      fun _ => ⟨hnil, hr.2⟩⟩
  · by_cases hcap : s1.updatesInFlight < o.concurrency
    · simp only [if_neg hr, if_pos hcap]
      have hf := execBatchUpdate_state_facts o (s1.updates.length + 1) s1
      have hres1 : (execBatchUpdate o (s1.updates.length + 1) s1).1.resolved = false := by
        rw [hf.1]; simpa [hs1] using hres
      refine ⟨hf.2.1 hinv1, ?_, ?_⟩
      · intro _
        by_cases hdone : s1.batchProcessingDone = true
        · have hnz : s1.updatesInFlight ≠ 0 := fun h0 => hr ⟨h0, hdone⟩
          have hne : s1.pending ≠ [] := by
            intro hnil
            rw [hnil] at hinv1
            simp at hinv1
            exact hnz hinv1
          rcases hf.2.2.1 with ⟨l, hl⟩
          rw [hl]
          intro hcontra
          exact hne (List.append_eq_nil.mp hcontra).1
        · have hdone' : s1.batchProcessingDone = false := by
            simpa using hdone
          exact hf.2.2.2.1 hdone' hcap (by omega)
      · intro habs
        rw [hres1] at habs
        exact absurd habs (by simp)
    · simp only [if_neg hr, if_neg hcap]
      have hne : s1.pending ≠ [] := by
        intro hnil
        apply hcap
        calc s1.updatesInFlight = ((s1.pending.length : Nat) : Int) := hinv1
          _ = 0 := by rw [hnil]; simp
          _ < o.concurrency := by omega
      exact ⟨hinv1, fun _ => hne, fun habs => by
        rw [show s1.resolved = false from by simpa [hs1] using hres] at habs
        exact absurd habs (by simp)⟩

theorem runSchedT_liveness (o : UpdOptions) (f : Nat → AjaxOutcome)
    (hc : 1 ≤ o.concurrency) :
    ∀ (sched : List Nat) (s : DState),
      s.updatesInFlight = (s.pending.length : Int) →
      (s.resolved = false → s.pending ≠ []) →
      (s.resolved = true → s.pending = [] ∧ s.batchProcessingDone = true) →
      validSchedB o f s sched = true →
      (runSchedT o f sched s).1.updatesInFlight
        = (((runSchedT o f sched s).1.pending.length : Int)) ∧
      ((runSchedT o f sched s).1.resolved = false →
        (runSchedT o f sched s).1.pending ≠ []) ∧
      ((runSchedT o f sched s).1.resolved = true →
        (runSchedT o f sched s).1.pending = [] ∧
        (runSchedT o f sched s).1.batchProcessingDone = true) := by
  intro sched
  induction sched with
  | nil =>
      intro s h1 h2 h3 _
      exact ⟨h1, h2, h3⟩
  | cons id rest ih =>
      intro s h1 h2 h3 hv
      simp only [validSchedB, Bool.and_eq_true] at hv
      have hmem : id ∈ s.pending := by simpa using hv.1
      have hres : s.resolved = false := by
        by_contra hres
        have := (h3 (by simpa using hres)).1
        rw [this] at hmem
        exact absurd hmem (List.not_mem_nil id)
      have hstep := onUpdateDone_liveness o (f id) id s hc hmem h1 hres
      have hdone3 : (onUpdateDone o (f id) id s).1.resolved = true →
          (onUpdateDone o (f id) id s).1.pending = [] ∧
          (onUpdateDone o (f id) id s).1.batchProcessingDone = true :=
        hstep.2.2
      simp only [runSchedT]
      exact ih (onUpdateDone o (f id) id s).1 hstep.1 hstep.2.1 hdone3 hv.2

theorem getBatchUpdateList_eq (b : Int) (u : List String) :
    getBatchUpdateList b u =
      (wrapIfNeeded (strJoin (pullList u 0 b).1), (pullList u 0 b).2,
        (pullList u 0 b).2.isEmpty) := by
  unfold getBatchUpdateList
  rw [pullLoop_eq_pullList b u 0 ""]
  simp [String.empty_append]

theorem execBatchUpdate_batches (o : UpdOptions) (hb : 1 ≤ o.batchSize)
    (C : List String) :
    ∀ (fuel : Nat) (s : DState), s.updates.length < fuel →
      (s.submitted.map Prod.snd ++
        (if s.batchProcessingDone = true then []
         else (buildBatches s.updates o.batchSize).map
           (fun l => wrapIfNeeded (strJoin l))) = C) →
      (s.submitted.map Prod.fst = List.range s.submitted.length) →
      ((execBatchUpdate o fuel s).1.submitted.map Prod.snd ++
        (if (execBatchUpdate o fuel s).1.batchProcessingDone = true then []
         else (buildBatches (execBatchUpdate o fuel s).1.updates o.batchSize).map
           (fun l => wrapIfNeeded (strJoin l))) = C) ∧
      ((execBatchUpdate o fuel s).1.submitted.map Prod.fst
        = List.range (execBatchUpdate o fuel s).1.submitted.length) := by
  intro fuel
  induction fuel with
  | zero => intro s hfu; omega
  | succ fuel ih =>
      intro s hfu hJ hIds
      by_cases hg : s.batchProcessingDone = true ∨ s.updatesInFlight ≥ o.concurrency
      · have he : execBatchUpdate o (fuel + 1) s = (s, []) := by
          simp only [execBatchUpdate, if_pos hg]
        rw [he]
        exact ⟨hJ, hIds⟩
      · have hdone : s.batchProcessingDone = false := by
          rcases Bool.eq_false_or_eq_true s.batchProcessingDone with h | h
          · exact absurd (Or.inl h) hg
          · exact h
        -- the launch consumes one batch from the front of the remaining plan
        have hstep := buildBatches_step o.batchSize hb s.updates
        have hgb := getBatchUpdateList_eq o.batchSize s.updates
        have hs2submitted : (launchOne o s).submitted
            = s.submitted ++ [(s.submitted.length, (getBatchUpdateList o.batchSize s.updates).1)] := by
          simp [launchOne]
        have hs2updates : (launchOne o s).updates
            = (getBatchUpdateList o.batchSize s.updates).2.1 := by
          simp [launchOne]
        have hs2done : (launchOne o s).batchProcessingDone
            = (getBatchUpdateList o.batchSize s.updates).2.2 := by
          simp [launchOne, hdone]
        have hJ2 : (launchOne o s).submitted.map Prod.snd ++
            (if (launchOne o s).batchProcessingDone = true then []
             else (buildBatches (launchOne o s).updates o.batchSize).map
               (fun l => wrapIfNeeded (strJoin l))) = C := by
          rw [hs2submitted, hs2updates, hs2done, hgb]
          rw [hdone] at hJ
          simp only [Bool.false_eq_true, if_neg, not_false_eq_true] at hJ
          rw [hstep] at hJ
          simp only [List.map_cons,
            apply_ite (List.map (fun l => wrapIfNeeded (strJoin l))),
            List.map_nil] at hJ
          rw [← hJ]
          simp [List.append_assoc]
        have hIds2 : (launchOne o s).submitted.map Prod.fst
            = List.range (launchOne o s).submitted.length := by
          rw [hs2submitted]
          simp [hIds, List.range_succ]
        by_cases hd : (launchOne o s).batchProcessingDone = true
        · have he : execBatchUpdate o (fuel + 1) s
              = (launchOne o s, [launchOne o s]) := by
            simp only [execBatchUpdate, if_neg hg, if_pos hd]
          rw [he]
          exact ⟨hJ2, hIds2⟩
        · have he : execBatchUpdate o (fuel + 1) s
              = ((execBatchUpdate o fuel (launchOne o s)).1,
                 launchOne o s :: (execBatchUpdate o fuel (launchOne o s)).2) := by
            simp only [execBatchUpdate, if_neg hg, if_neg hd]
          rw [he]
          -- fuel bookkeeping: the launch removed at least one descriptor
          have hne : ¬((pullList s.updates 0 o.batchSize).2.isEmpty = true) := by
            intro habs
            rw [hs2done, hgb] at hd
            exact hd habs
          have hlen : (launchOne o s).updates.length < fuel := by
            rw [hs2updates, hgb]
            have hpl := pullList_eq_take_drop o.batchSize s.updates 0
            simp only [Int.sub_zero] at hpl
            rw [hpl]
            simp only [List.isEmpty_iff] at hne
            have h1 : (s.updates.drop o.batchSize.toNat).length
                = s.updates.length - o.batchSize.toNat := List.length_drop _ _
            have h2 : ¬(s.updates.length ≤ o.batchSize.toNat) := by
              intro hle
              exact absurd (List.drop_eq_nil_iff.mpr hle) (by rw [hpl] at hne; simpa using hne)
            simp only [hpl]
            omega
          exact ih (launchOne o s) hlen hJ2 hIds2

theorem onUpdateDone_batches (o : UpdOptions) (hb : 1 ≤ o.batchSize)
    (C : List String) (outc : AjaxOutcome) (id : Nat) (s : DState)
    (hJ : s.submitted.map Prod.snd ++
      (if s.batchProcessingDone = true then []
       else (buildBatches s.updates o.batchSize).map
         (fun l => wrapIfNeeded (strJoin l))) = C)
    (hIds : s.submitted.map Prod.fst = List.range s.submitted.length) :
    ((onUpdateDone o outc id s).1.submitted.map Prod.snd ++
      (if (onUpdateDone o outc id s).1.batchProcessingDone = true then []
       else (buildBatches (onUpdateDone o outc id s).1.updates o.batchSize).map
         (fun l => wrapIfNeeded (strJoin l))) = C) ∧
    ((onUpdateDone o outc id s).1.submitted.map Prod.fst
      = List.range (onUpdateDone o outc id s).1.submitted.length) := by
  unfold onUpdateDone
  set s1 : DState :=
    { s with
        updatesInFlight := s.updatesInFlight - 1
        pending := s.pending.erase id } with hs1
  have hJ1 : s1.submitted.map Prod.snd ++
      (if s1.batchProcessingDone = true then []
       else (buildBatches s1.updates o.batchSize).map
         (fun l => wrapIfNeeded (strJoin l))) = C := hJ
  have hIds1 : s1.submitted.map Prod.fst = List.range s1.submitted.length := hIds
  by_cases hr : s1.updatesInFlight = 0 ∧ s1.batchProcessingDone = true
  · simp only [if_pos hr]
    exact ⟨hJ1, hIds1⟩
  · by_cases hcap : s1.updatesInFlight < o.concurrency
    · simp only [if_neg hr, if_pos hcap]
      exact execBatchUpdate_batches o hb C (s1.updates.length + 1) s1
        (by omega) hJ1 hIds1
    · simp only [if_neg hr, if_neg hcap]
      exact ⟨hJ1, hIds1⟩

theorem runSchedT_batches (o : UpdOptions) (f : Nat → AjaxOutcome)
    (hb : 1 ≤ o.batchSize) (C : List String) :
    ∀ (sched : List Nat) (s : DState),
      (s.submitted.map Prod.snd ++
        (if s.batchProcessingDone = true then []
         else (buildBatches s.updates o.batchSize).map
           (fun l => wrapIfNeeded (strJoin l))) = C) →
      (s.submitted.map Prod.fst = List.range s.submitted.length) →
      ((runSchedT o f sched s).1.submitted.map Prod.snd ++
        (if (runSchedT o f sched s).1.batchProcessingDone = true then []
         else (buildBatches (runSchedT o f sched s).1.updates o.batchSize).map
           (fun l => wrapIfNeeded (strJoin l))) = C) ∧
      ((runSchedT o f sched s).1.submitted.map Prod.fst
        = List.range (runSchedT o f sched s).1.submitted.length) := by
  intro sched
  induction sched with
  | nil => intro s hJ hIds; exact ⟨hJ, hIds⟩
  | cons id rest ih =>
      intro s hJ hIds
      have hstep := onUpdateDone_batches o hb C (f id) id s hJ hIds
      simp only [runSchedT]
      exact ih (onUpdateDone o (f id) id s).1 hstep.1 hstep.2

/-- Claim C9 — once dispatch begins, the set of batches submitted is fixed:
for every valid completion schedule that runs to completion (every issued
request eventually settles — the Transport contract), (a) the scheduler
state never depends on whether individual batches succeeded or failed
(the `always` completion callback ignores the settled values, so a
failure neither cancels siblings nor triggers anything extra), (b) the
submitted request payloads are exactly the batches built from the queue,
in build order — each built batch submitted exactly once, never retried
(the request ids are the distinct ids `0, 1, 2, ...`), and (c) the
overall promise resolves only once all of them have completed. -/
theorem C9_all_batches_submitted_exactly_once (o : UpdOptions)
    (f g : Nat → AjaxOutcome) (q : List String) (sched : List Nat)
    (hb : 1 ≤ o.batchSize) (hc : 1 ≤ o.concurrency)
    (hv : validSchedB o f (initRun o q) sched = true)
    (hcomp : (finalState o f q sched).pending = []) :
    finalState o f q sched = finalState o g q sched ∧
    (finalState o f q sched).submitted.map Prod.snd
      = (buildBatches q o.batchSize).map (fun l => wrapIfNeeded (strJoin l)) ∧
    (finalState o f q sched).submitted.map Prod.fst
      = List.range (buildBatches q o.batchSize).length ∧
    (finalState o f q sched).resolved = true := by
  have hefacts := execBatchUpdate_state_facts o (q.length + 1) (mkInit q)
  have h0inv : (initRun o q).updatesInFlight
      = ((initRun o q).pending.length : Int) := by
    unfold initRun
    exact hefacts.2.1 (by simp [mkInit])
  have h0res : (initRun o q).resolved = false := by
    unfold initRun
    rw [hefacts.1]
    rfl
  have h0pend : (initRun o q).pending ≠ [] := by
    unfold initRun
    exact hefacts.2.2.2.1 (by rfl) (by simp [mkInit]; omega) (by omega)
  have hlive := runSchedT_liveness o f hc sched (initRun o q) h0inv
    (fun _ => h0pend) (fun habs => absurd habs (by rw [h0res]; simp)) hv
  have hresolved : (finalState o f q sched).resolved = true := by
    by_contra hfalse
    have : (finalState o f q sched).resolved = false := by
      simpa using hfalse
    exact hlive.2.1 this hcomp
  have hdone : (finalState o f q sched).batchProcessingDone = true :=
    (hlive.2.2 hresolved).2
  have hbatches := runSchedT_batches o f hb
    ((buildBatches q o.batchSize).map (fun l => wrapIfNeeded (strJoin l)))
    sched (initRun o q)
    (by
      unfold initRun
      exact (execBatchUpdate_batches o hb
        ((buildBatches q o.batchSize).map (fun l => wrapIfNeeded (strJoin l)))
        (q.length + 1) (mkInit q) (by simp [mkInit])
        (by simp [mkInit]) (by simp [mkInit])).1)
    (by
      unfold initRun
      exact (execBatchUpdate_batches o hb
        ((buildBatches q o.batchSize).map (fun l => wrapIfNeeded (strJoin l)))
        (q.length + 1) (mkInit q) (by simp [mkInit])
        (by simp [mkInit]) (by simp [mkInit])).2)
  have hfs : finalState o f q sched = (runSchedT o f sched (initRun o q)).1 :=
    rfl
  have hsnd : (finalState o f q sched).submitted.map Prod.snd
      = (buildBatches q o.batchSize).map (fun l => wrapIfNeeded (strJoin l)) := by
    have hx := hbatches.1
    rw [hfs] at hdone
    rw [hdone] at hx
    rw [hfs]
    simpa using hx
  refine ⟨?_, hsnd, ?_, hresolved⟩
  · unfold finalState
    rw [runSchedT_outcome_irrel o f g sched (initRun o q)]
  · have hlen : (finalState o f q sched).submitted.length
        = (buildBatches q o.batchSize).length := by
      have := congrArg List.length hsnd
      simpa using this
    rw [hfs, hbatches.2, ← hfs, hlen]

/-! ### Lemmas about the response aggregator -/

theorem firstFailure_map_success :
    ∀ (ts : List (JVal × JVal × JVal)),
      firstFailure (ts.map (fun t => AjaxOutcome.success t.1 t.2.1 t.2.2)) = none
  | [] => rfl
  | t :: rest => by
      simp only [List.map_cons, firstFailure, List.find?]
      exact firstFailure_map_success rest

theorem getLast?_cons_of_ne {α : Type} (a : α) :
    ∀ (l : List α), l ≠ [] → (a :: l).getLast? = l.getLast?
  | [], h => absurd rfl h
  | b :: rest, _ => List.getLast?_cons_cons

theorem foldl_parStep_status_message (multi : Bool) (hasE : JVal → Bool)
    (getE : JVal → String) :
    ∀ (ts : List (JVal × JVal × JVal)) (r : UResponse),
      ((ts.map (fun t => JVal.arr [t.1, t.2.1, t.2.2])).foldl
          (parStep multi false hasE getE) r).status
        = (if (ts.filter (fun t => hasE t.1)).isEmpty then r.status
           else "error") ∧
      ((ts.map (fun t => JVal.arr [t.1, t.2.1, t.2.2])).foldl
          (parStep multi false hasE getE) r).message
        = (match (ts.filter (fun t => hasE t.1)).getLast? with
           | some t => .str (getE t.1)
           | none => r.message) := by
  intro ts
  induction ts with
  | nil => intro r; simp
  | cons t rest ih =>
      intro r
      simp only [List.map_cons, List.foldl_cons]
      have hfc : (t :: rest).filter (fun t => hasE t.1)
          = if hasE t.1 = true then t :: rest.filter (fun t => hasE t.1)
            else rest.filter (fun t => hasE t.1) := by
        simp [List.filter_cons]
      have ihr := ih (parStep multi false hasE getE r (JVal.arr [t.1, t.2.1, t.2.2]))
      by_cases he : hasE t.1 = true
      · have hstep :
            (parStep multi false hasE getE r (JVal.arr [t.1, t.2.1, t.2.2])).status
              = "error" ∧
            (parStep multi false hasE getE r (JVal.arr [t.1, t.2.1, t.2.2])).message
              = .str (getE t.1) := by
          unfold parStep
          simp [jsGet, he]
        rw [hfc, if_pos he, ihr.1, ihr.2, hstep.1, hstep.2]
        by_cases hrest : rest.filter (fun t => hasE t.1) = []
        · simp [hrest]
        · have hcons : (t :: rest.filter (fun t => hasE t.1)).isEmpty = false := by
            simp
          rw [getLast?_cons_of_ne t (rest.filter (fun t => hasE t.1)) hrest]
          constructor
          · simp [List.isEmpty_iff, hrest]
          · cases hlast : (rest.filter (fun t => hasE t.1)).getLast?
            · exact absurd (List.getLast?_eq_none_iff.mp hlast) hrest
            · rfl
      · have hstep :
            parStep multi false hasE getE r (JVal.arr [t.1, t.2.1, t.2.2])
              = (if multi then
                  { r with
                      httpData := jsPush r.httpData t.1
                      xhrRequest := jsPush r.xhrRequest t.2.2 }
                 else r) := by
          unfold parStep
          simp [jsGet, he]
        have hs : (if multi then
            { r with
                httpData := jsPush r.httpData t.1
                xhrRequest := jsPush r.xhrRequest t.2.2 }
           else r).status = r.status := by
          by_cases hm : multi = true <;> simp [hm]
        have hm2 : (if multi then
            { r with
                httpData := jsPush r.httpData t.1
                xhrRequest := jsPush r.xhrRequest t.2.2 }
           else r).message = r.message := by
          by_cases hm : multi = true <;> simp [hm]
        rw [hfc, if_neg he, ihr.1, ihr.2, hstep, hs, hm2]
        exact ⟨rfl, rfl⟩

theorem foldl_parStep_pushes (hasE : JVal → Bool) (getE : JVal → String) :
    ∀ (ts : List (JVal × JVal × JVal)) (r : UResponse)
      (a1 a2 : List JVal), r.httpData = .arr a1 → r.xhrRequest = .arr a2 →
      ((ts.map (fun t => JVal.arr [t.1, t.2.1, t.2.2])).foldl
          (parStep true false hasE getE) r).httpData
        = .arr (a1 ++ ts.map (fun t => t.1)) ∧
      ((ts.map (fun t => JVal.arr [t.1, t.2.1, t.2.2])).foldl
          (parStep true false hasE getE) r).xhrRequest
        = .arr (a2 ++ ts.map (fun t => t.2.2)) := by
  intro ts
  induction ts with
  | nil => intro r a1 a2 h1 h2; simp [h1, h2]
  | cons t rest ih =>
      intro r a1 a2 h1 h2
      simp only [List.map_cons, List.foldl_cons]
      have hh : (parStep true false hasE getE r
          (JVal.arr [t.1, t.2.1, t.2.2])).httpData = .arr (a1 ++ [t.1]) := by
        unfold parStep
        by_cases he : hasE t.1 = true <;>
          simp [he, jsGet, jsPush, h1]
      have hx : (parStep true false hasE getE r
          (JVal.arr [t.1, t.2.1, t.2.2])).xhrRequest = .arr (a2 ++ [t.2.2]) := by
        unfold parStep
        by_cases he : hasE t.1 = true <;>
          simp [he, jsGet, jsPush, h2]
      have := ih (parStep true false hasE getE r (JVal.arr [t.1, t.2.1, t.2.2]))
        (a1 ++ [t.1]) (a2 ++ [t.2.2]) hh hx
      simpa using this

theorem processAjax_multi_httpError (n : Nat) (hasE : JVal → Bool)
    (getE : JVal → String) (x s e : JVal) (hn : n > 1) :
    processAjaxResponses n hasE getE [x, s, e] true
      = { status := "error"
          message := jsOr (jsGet e 1) (.str "HTTP error.")
          httpData := .arr [jsGet x 2, jsGet s 2, jsGet e 2]
          xhrRequest := .arr [jsGet x 2, jsGet s 2, jsGet e 2] } := by
  unfold processAjaxResponses
  have hm : decide (n > 1) = true := decide_eq_true hn
  simp only [hm, if_pos, List.foldl]
  unfold parStep
  simp [jsPush]

theorem processAjax_single_httpError (hasE : JVal → Bool)
    (getE : JVal → String) (x s e : JVal) :
    processAjaxResponses 1 hasE getE [x, s, e] true
      = { status := "error"
          message := jsOr s (.str "HTTP error.")
          httpData := e
          xhrRequest := e } := by
  unfold processAjaxResponses
  simp only [List.foldl]
  unfold parStep
  simp [jsGet]

theorem whenArgs_of_firstFailure (outs : List AjaxOutcome) (x s e : JVal)
    (hf : firstFailure outs = some (.failure x s e)) :
    whenArgs outs = (true, [x, s, e]) := by
  unfold whenArgs
  rw [hf]

theorem whenArgs_single_success (d s x : JVal) :
    whenArgs [AjaxOutcome.success d s x] = (false, [d, s, x]) := rfl

theorem whenArgs_multi_success (ts : List (JVal × JVal × JVal))
    (h : ts.length ≠ 1) :
    whenArgs (ts.map (fun t => AjaxOutcome.success t.1 t.2.1 t.2.2))
      = (false, ts.map (fun t => JVal.arr [t.1, t.2.1, t.2.2])) := by
  unfold whenArgs
  rw [firstFailure_map_success ts]
  match ts, h with
  | [], _ => rfl
  | [t], h => exact absurd rfl h
  | t1 :: t2 :: rest, _ => simp

/-- Claim C2 — as stated the claim is false on two counts: the outcomes are
recorded in submission order, not completion order, and on any rejection
jQuery's `$.when` hands `processAjaxResponses` only the argument triple
`(jqXHR, textStatus, errorThrown)` of the *first* rejected request, not
the outcome list.  The "last wins" overwrite loop then scans that triple
itself.  At this input (two batches, both failing, the `"timeout"`
failure completing last) the claim predicts message `"timeout"`, but the
code reports `"n"` — the character at index 1 of the first rejection's
`errorThrown` string `"Internal Server Error"`. -/
theorem C2_counterexample :
    (dispatchResult { batchSize := 1 } (fun _ => false) (fun _ => "")
        (fun n => if n = 0 then
            AjaxOutcome.failure (.obj 100) (.str "remote error")
              (.str "Internal Server Error")
          else
            AjaxOutcome.failure (.obj 101) (.str "timeout") (.str "timeout"))
        ["u1", "u2"] [0, 1]).map UResponse.message
      = some (.str "n") ∧
    JVal.str "n" ≠ JVal.str "timeout" := by
  constructor
  · decide
  · decide

/-- Claim C2 (amended) — if any outcome is a transport `Failure`, the
aggregated status is `"error"`, but the aggregated message is derived
solely from the *first* failure in submission order (`updatePromisesList`
order); completion order and later failures are never consulted.  With a
single batch the message is that failure's `textStatus` (or
`"HTTP error."` when falsy); with several batches the rejection's
argument triple `(jqXHR, textStatus, errorThrown)` is itself scanned as
though it were the outcome list, so the reported message is
`errorThrown[1] || "HTTP error."` — the character at index 1 of the
first rejection's `errorThrown`. -/
theorem C2_failure_message (hasE : JVal → Bool) (getE : JVal → String)
    (outs : List AjaxOutcome) (x s e : JVal)
    (hf : firstFailure outs = some (.failure x s e)) :
    (aggregate hasE getE outs).status = "error" ∧
    (aggregate hasE getE outs).message =
      (if outs.length > 1 then jsOr (jsGet e 1) (.str "HTTP error.")
       else jsOr s (.str "HTTP error.")) := by
  unfold aggregate
  rw [whenArgs_of_firstFailure outs x s e hf]
  by_cases hn : outs.length > 1
  · rw [processAjax_multi_httpError outs.length hasE getE x s e hn]
    simp [hn]
  · have hlen : outs.length = 1 := by
      have hne : outs ≠ [] := by
        intro habs
        rw [habs] at hf
        simp [firstFailure] at hf
      have : 1 ≤ outs.length := List.length_pos.mpr hne
      omega
    rw [hlen, processAjax_single_httpError hasE getE x s e]
    simp [hn]

/-- Witness for `C2_failure_message`: a single failed batch with
`textStatus = "timeout"`. -/
theorem C2_failure_message_witness :
    (aggregate (fun _ => false) (fun _ => "")
        [AjaxOutcome.failure (.obj 0) (.str "timeout") (.str "netfail")]).status
      = "error" ∧
    (aggregate (fun _ => false) (fun _ => "")
        [AjaxOutcome.failure (.obj 0) (.str "timeout") (.str "netfail")]).message
      = .str "timeout" := by
  have h := C2_failure_message (fun _ => false) (fun _ => "")
    [AjaxOutcome.failure (.obj 0) (.str "timeout") (.str "netfail")]
    (.obj 0) (.str "timeout") (.str "netfail") (by decide)
  refine ⟨h.1, ?_⟩
  rw [h.2]
  decide

/-- Claim C8 — as stated the claim is false: when several successful
payloads embed an application-level error, each detection *overwrites*
status and message, so the reported message is the **last** detected
application error's, not the first's.  Here both payloads err with
messages `"e1"` then `"e2"`, and the result is `"e2"`. -/
theorem C8_counterexample :
    (dispatchResult { batchSize := 1 }
        (fun v => v == JVal.obj 10 || v == JVal.obj 11)
        (fun v => if v == JVal.obj 10 then "e1" else "e2")
        (fun n => AjaxOutcome.success (.obj (10 + n)) (.str "success")
          (.obj (100 + n)))
        ["u1", "u2"] [0, 1]).map UResponse.message
      = some (.str "e2") ∧
    JVal.str "e2" ≠ JVal.str "e1" := by
  constructor
  · decide
  · decide

/-- Claim C8 (amended) — when no outcome is a transport failure, each
successful payload is checked by the external error inspector in
submission order; if any payload embeds an application error the status
is `"error"` and the message is the **last** detected error's message
(later detections overwrite earlier ones); otherwise the status is
`"success"` with the fixed message `"Update Successful."`. -/
theorem C8_app_error_last_wins (hasE : JVal → Bool) (getE : JVal → String)
    (ts : List (JVal × JVal × JVal)) (hne : ts ≠ []) :
    (aggregate hasE getE
        (ts.map (fun t => AjaxOutcome.success t.1 t.2.1 t.2.2))).status
      = (if (ts.filter (fun t => hasE t.1)).isEmpty then "success"
         else "error") ∧
    (aggregate hasE getE
        (ts.map (fun t => AjaxOutcome.success t.1 t.2.1 t.2.2))).message
      = (match (ts.filter (fun t => hasE t.1)).getLast? with
         | some t => JVal.str (getE t.1)
         | none => .str "Update Successful.") := by
  unfold aggregate
  match ts, hne with
  | [t], _ =>
      rw [show ([t].map (fun t => AjaxOutcome.success t.1 t.2.1 t.2.2))
          = [AjaxOutcome.success t.1 t.2.1 t.2.2] from rfl]
      rw [whenArgs_single_success t.1 t.2.1 t.2.2]
      unfold processAjaxResponses
      simp only [List.length_singleton, show decide ((1 : Nat) > 1) = false from rfl,
        Bool.false_eq_true, if_neg, not_false_eq_true]
      have hfold := foldl_parStep_status_message false hasE getE [t]
        { status := "success"
          message := .str "Update Successful."
          httpData := jsGet (.arr [t.1, t.2.1, t.2.2]) 0
          xhrRequest := jsGet (.arr [t.1, t.2.1, t.2.2]) 2 }
      simpa using hfold
  | t1 :: t2 :: rest, _ =>
      rw [whenArgs_multi_success (t1 :: t2 :: rest) (by simp)]
      unfold processAjaxResponses
      have hgt : ((t1 :: t2 :: rest).map
          (fun t => AjaxOutcome.success t.1 t.2.1 t.2.2)).length > 1 := by
        simp
      simp only [decide_eq_true hgt, if_pos]
      have hfold := foldl_parStep_status_message true hasE getE (t1 :: t2 :: rest)
        { status := "success"
          message := .str "Update Successful."
          httpData := .arr []
          xhrRequest := .arr [] }
      simpa using hfold

/-- Witness for `C8_app_error_last_wins`: two successes whose payloads
both embed errors; the second one's message is reported. -/
theorem C8_app_error_last_wins_witness :
    (aggregate (fun v => v == JVal.obj 10 || v == JVal.obj 11)
        (fun v => if v == JVal.obj 10 then "e1" else "e2")
        ([((JVal.obj 10), (JVal.str "s"), (JVal.obj 100)),
          ((JVal.obj 11), (JVal.str "s"), (JVal.obj 101))].map
          (fun t => AjaxOutcome.success t.1 t.2.1 t.2.2))).status = "error" ∧
    (aggregate (fun v => v == JVal.obj 10 || v == JVal.obj 11)
        (fun v => if v == JVal.obj 10 then "e1" else "e2")
        ([((JVal.obj 10), (JVal.str "s"), (JVal.obj 100)),
          ((JVal.obj 11), (JVal.str "s"), (JVal.obj 101))].map
          (fun t => AjaxOutcome.success t.1 t.2.1 t.2.2))).message
      = JVal.str "e2" := by
  have h := C8_app_error_last_wins
    (fun v => v == JVal.obj 10 || v == JVal.obj 11)
    (fun v => if v == JVal.obj 10 then "e1" else "e2")
    [((JVal.obj 10), (JVal.str "s"), (JVal.obj 100)),
     ((JVal.obj 11), (JVal.str "s"), (JVal.obj 101))] (by decide)
  refine ⟨?_, ?_⟩
  · rw [h.1]; decide
  · rw [h.2]; decide

/-- Claim C7 — as stated the claim is false for multi-batch dispatches: the
result sequences are in *submission* order, not completion order.  Here
batch 1 (data `obj 11`) completes before batch 0 (data `obj 10`), yet
`httpData` is `[obj 10, obj 11]` — submission order — rather than the
claimed completion order `[obj 11, obj 10]`. -/
theorem C7_counterexample :
    (dispatchResult { batchSize := 1 } (fun _ => false) (fun _ => "")
        (fun n => AjaxOutcome.success (.obj (10 + n)) (.str "success")
          (.obj (100 + n)))
        ["u1", "u2"] [1, 0]).map UResponse.httpData
      = some (.arr [.obj 10, .obj 11]) ∧
    JVal.arr [.obj 10, .obj 11] ≠ JVal.arr [.obj 11, .obj 10] := by
  constructor
  · decide
  · decide

/-- Claim C7 (amended) — shapes of `httpData` / `xhrRequest`: with exactly
one batch they are single values — the response data and the jqXHR on
success, and (both) the `errorThrown` value on failure; with more than
one batch and no failure they are arrays with exactly one entry per
outcome in *submission* order; with more than one batch and a failure
they are arrays holding three entries derived by indexing the first
rejected request's `(jqXHR, textStatus, errorThrown)` triple, not one
entry per outcome. -/
theorem C7_result_field_shapes (hasE : JVal → Bool) (getE : JVal → String) :
    (∀ d s x : JVal,
      (aggregate hasE getE [AjaxOutcome.success d s x]).httpData = d ∧
      (aggregate hasE getE [AjaxOutcome.success d s x]).xhrRequest = x) ∧
    (∀ x s e : JVal,
      (aggregate hasE getE [AjaxOutcome.failure x s e]).httpData = e ∧
      (aggregate hasE getE [AjaxOutcome.failure x s e]).xhrRequest = e) ∧
    (∀ ts : List (JVal × JVal × JVal), ts.length > 1 →
      (aggregate hasE getE
          (ts.map (fun t => AjaxOutcome.success t.1 t.2.1 t.2.2))).httpData
        = .arr (ts.map (fun t => t.1)) ∧
      (aggregate hasE getE
          (ts.map (fun t => AjaxOutcome.success t.1 t.2.1 t.2.2))).xhrRequest
        = .arr (ts.map (fun t => t.2.2))) ∧
    (∀ (outs : List AjaxOutcome) (x s e : JVal), outs.length > 1 →
      firstFailure outs = some (.failure x s e) →
      (aggregate hasE getE outs).httpData
        = .arr [jsGet x 2, jsGet s 2, jsGet e 2] ∧
      (aggregate hasE getE outs).xhrRequest
        = .arr [jsGet x 2, jsGet s 2, jsGet e 2]) := by
  refine ⟨?_, ?_, ?_, ?_⟩
  · intro d s x
    unfold aggregate
    rw [whenArgs_single_success d s x]
    unfold processAjaxResponses
    simp only [List.length_singleton, show decide ((1 : Nat) > 1) = false from rfl,
      Bool.false_eq_true, if_neg, not_false_eq_true, List.foldl]
    unfold parStep
    by_cases he : hasE (jsGet (.arr [d, s, x]) 0) = true <;>
      simp [he, jsGet] <;>
      split <;> exact ⟨rfl, rfl⟩
  · intro x s e
    unfold aggregate
    have hw : whenArgs [AjaxOutcome.failure x s e] = (true, [x, s, e]) := rfl
    rw [hw]
    rw [show ([AjaxOutcome.failure x s e] : List AjaxOutcome).length = 1 from rfl,
      processAjax_single_httpError hasE getE x s e]
    exact ⟨rfl, rfl⟩
  · intro ts hts
    unfold aggregate
    rw [whenArgs_multi_success ts (by omega)]
    unfold processAjaxResponses
    have hgt : (ts.map (fun t => AjaxOutcome.success t.1 t.2.1 t.2.2)).length > 1 := by
      simpa using hts
    simp only [decide_eq_true hgt, if_pos]
    have hfold := foldl_parStep_pushes hasE getE ts
      { status := "success"
        message := .str "Update Successful."
        httpData := .arr []
        xhrRequest := .arr [] } [] [] rfl rfl
    simpa using hfold
  · intro outs x s e hn hf
    unfold aggregate
    rw [whenArgs_of_firstFailure outs x s e hf]
    rw [processAjax_multi_httpError outs.length hasE getE x s e hn]
    exact ⟨rfl, rfl⟩

/-- Witness for `C7_result_field_shapes`: the single-success and
multi-success shapes at concrete values. -/
theorem C7_result_field_shapes_witness :
    (aggregate (fun _ => false) (fun _ => "")
        [AjaxOutcome.success (.obj 1) (.str "success") (.obj 2)]).httpData
      = JVal.obj 1 ∧
    (aggregate (fun _ => false) (fun _ => "")
        ([((JVal.obj 10), (JVal.str "s"), (JVal.obj 100)),
          ((JVal.obj 11), (JVal.str "s"), (JVal.obj 101))].map
          (fun t => AjaxOutcome.success t.1 t.2.1 t.2.2))).httpData
      = JVal.arr [.obj 10, .obj 11] := by
  have h := C7_result_field_shapes (fun _ => false) (fun _ => "")
  refine ⟨(h.1 (.obj 1) (.str "success") (.obj 2)).1, ?_⟩
  have h3 := (h.2.2.1
    [((JVal.obj 10), (JVal.str "s"), (JVal.obj 100)),
     ((JVal.obj 11), (JVal.str "s"), (JVal.obj 101))] (by decide)).1
  rw [h3]
  rfl

theorem aggregate_single_success (hasE : JVal → Bool) (getE : JVal → String)
    (d s x : JVal) (hne : hasE d = false) :
    aggregate hasE getE [AjaxOutcome.success d s x]
      = { status := "success", message := .str "Update Successful."
          httpData := d, xhrRequest := x } := by
  unfold aggregate
  rw [whenArgs_single_success d s x]
  unfold processAjaxResponses
  simp only [List.length_singleton, show decide ((1 : Nat) > 1) = false from rfl,
    Bool.false_eq_true, if_neg, not_false_eq_true, List.foldl]
  unfold parStep
  simp [jsGet, hne]

/-- Claim C4 — as stated the claim is false: with an empty queue the
dispatcher still issues one Transport call (an empty
`<Batch OnError="Continue"></Batch>` payload), because `execBatchUpdate`
unconditionally builds and posts a batch before the exhaustion flag is
ever consulted; it also does not resolve until that call completes. -/
theorem C4_counterexample :
    (initRun {} []).submitted.length = 1 ∧
    (initRun {} []).resolved = false := by
  constructor
  · decide
  · decide

/-- Claim C4 (amended) — invoked with zero operations, the dispatcher
submits exactly one batch whose payload is the empty batch envelope
`<Batch OnError="Continue"></Batch>` (one Transport call, for every batch
size), resolves only after that call completes, and — when the call
succeeds with a payload carrying no application error — resolves with
status `"success"`, the fixed message, and that call's data and jqXHR as
the (single-valued) result fields. -/
theorem C4_empty_queue_one_call (o : UpdOptions) (hasE : JVal → Bool)
    (getE : JVal → String) (d s x : JVal)
    (hc : 1 ≤ o.concurrency) (hne : hasE d = false) :
    (initRun o []).submitted
      = [(0, "<Batch OnError=\"Continue\"></Batch>")] ∧
    (initRun o []).resolved = false ∧
    dispatchResult o hasE getE (fun _ => AjaxOutcome.success d s x) [] [0]
      = some { status := "success", message := .str "Update Successful.",
               httpData := d, xhrRequest := x } := by
  have hguard : ¬((mkInit ([] : List String)).batchProcessingDone = true ∨
      (mkInit ([] : List String)).updatesInFlight ≥ o.concurrency) := by
    simp only [mkInit, not_or]
    constructor
    · simp
    · omega
  have hinit : initRun o []
      = { updates := [], batchProcessingDone := true, updatesInFlight := 1,
          pending := [0],
          submitted := [(0, "<Batch OnError=\"Continue\"></Batch>")],
          resolved := false } := by
    unfold initRun
    show (execBatchUpdate o (0 + 1) (mkInit [])).1 = _
    simp only [execBatchUpdate, if_neg hguard]
    rfl
  refine ⟨by rw [hinit], by rw [hinit], ?_⟩
  have hfin : finalState o (fun _ => AjaxOutcome.success d s x) [] [0]
      = { updates := [], batchProcessingDone := true, updatesInFlight := 0,
          pending := [],
          submitted := [(0, "<Batch OnError=\"Continue\"></Batch>")],
          resolved := true } := by
    unfold finalState runSchedT runSchedT
    rw [hinit]
    rfl
  unfold dispatchResult
  rw [hfin]
  simp only [if_pos]
  rw [show ([(0, "<Batch OnError=\"Continue\"></Batch>")].map
      (fun pr => (fun _ => AjaxOutcome.success d s x) pr.1))
    = [AjaxOutcome.success d s x] from rfl]
  rw [aggregate_single_success hasE getE d s x hne]

/-- Witness for `C4_empty_queue_one_call` at the default configuration. -/
theorem C4_empty_queue_one_call_witness :
    dispatchResult {} (fun _ => false) (fun _ => "")
        (fun _ => AjaxOutcome.success (.obj 1) (.str "success") (.obj 2)) [] [0]
      = some { status := "success", message := .str "Update Successful.",
               httpData := .obj 1, xhrRequest := .obj 2 } :=
  (C4_empty_queue_one_call {} (fun _ => false) (fun _ => "")
    (.obj 1) (.str "success") (.obj 2) (by decide) rfl).2.2

/-- Claim C5 — as stated the claim is false: the entry point performs no
configuration validation at all and there is no `ConfigurationError`
path.  With `concurrency = 0` and a non-empty queue, the initial
`execBatchUpdate` returns immediately (its guard `updatesInFlight >=
maxConcurrentUpds` is satisfied at `0 >= 0`), so nothing is ever
submitted, nothing is surfaced to the caller, and the promise never
settles (here: the whole dispatch state is the untouched initial state
and the result is `none`). -/
theorem C5_counterexample :
    initRun { concurrency := 0 } ["u1"] = mkInit ["u1"] ∧
    dispatchResult { concurrency := 0 } (fun _ => false) (fun _ => "")
        (fun _ => AjaxOutcome.success .jsUndefined .jsUndefined .jsUndefined) ["u1"] [] = none := by
  constructor
  · decide
  · decide

/-- Claim C5 (amended) — the code never validates `batchSize` or
`concurrency` and never surfaces a configuration error: with
`concurrency ≤ 0` the dispatcher builds no batch, makes no Transport
call, and leaves the promise permanently unsettled (`none`), rather than
failing; with `batchSize ≥ 1` and `concurrency ≥ 1`, for every valid
completion schedule after which no request is pending, the promise does
settle with exactly one aggregated result. -/
theorem C5_no_configuration_validation (o : UpdOptions) (hasE : JVal → Bool)
    (getE : JVal → String) (f : Nat → AjaxOutcome) (q : List String)
    (sched : List Nat) :
    (o.concurrency ≤ 0 →
      initRun o q = mkInit q ∧
      dispatchResult o hasE getE f q [] = none) ∧
    (1 ≤ o.batchSize → 1 ≤ o.concurrency →
      validSchedB o f (initRun o q) sched = true →
      (finalState o f q sched).pending = [] →
      dispatchResult o hasE getE f q sched
        = some (aggregate hasE getE
            ((finalState o f q sched).submitted.map (fun pr => f pr.1)))) := by
  constructor
  · intro hc0
    have hguard : (mkInit q).batchProcessingDone = true ∨
        (mkInit q).updatesInFlight ≥ o.concurrency := by
      right
      simp only [mkInit]
      omega
    have hinit : initRun o q = mkInit q := by
      unfold initRun
      show (execBatchUpdate o (q.length + 1) (mkInit q)).1 = _
      simp only [execBatchUpdate, if_pos hguard]
    refine ⟨hinit, ?_⟩
    unfold dispatchResult finalState runSchedT
    rw [hinit]
    simp only [mkInit]
    rfl
  · intro hb hc hv hcomp
    have hefacts := execBatchUpdate_state_facts o (q.length + 1) (mkInit q)
    have h0inv : (initRun o q).updatesInFlight
        = ((initRun o q).pending.length : Int) := by
      unfold initRun
      exact hefacts.2.1 (by simp [mkInit])
    have h0res : (initRun o q).resolved = false := by
      unfold initRun
      rw [hefacts.1]
      rfl
    have h0pend : (initRun o q).pending ≠ [] := by
      unfold initRun
      exact hefacts.2.2.2.1 (by rfl) (by simp [mkInit]; omega) (by omega)
    have hlive := runSchedT_liveness o f hc sched (initRun o q) h0inv
      (fun _ => h0pend) (fun habs => absurd habs (by rw [h0res]; simp)) hv
    have hresolved : (finalState o f q sched).resolved = true := by
      by_contra hfalse
      have : (finalState o f q sched).resolved = false := by
        simpa using hfalse
      exact hlive.2.1 this hcomp
    unfold dispatchResult
    rw [if_pos hresolved]

/-- Witness for `C5_no_configuration_validation`: both conjuncts at a
concrete dispatch (one update, defaults `batchSize = 100`,
`concurrency = 2`). -/
theorem C5_no_configuration_validation_witness :
    (dispatchResult { concurrency := 0 } (fun _ => false) (fun _ => "")
        (fun _ => AjaxOutcome.success .jsUndefined .jsUndefined .jsUndefined) ["u1"] []).isNone
      = true ∧
    (dispatchResult {} (fun _ => false) (fun _ => "")
        (fun _ => AjaxOutcome.success (.obj 1) (.str "s") (.obj 2))
        ["u1"] [0]).isSome = true := by
  have h1 := (C5_no_configuration_validation { concurrency := 0 }
    (fun _ => false) (fun _ => "")
    (fun _ => AjaxOutcome.success .jsUndefined .jsUndefined .jsUndefined) ["u1"] []).1
    (by decide)
  have h2 := (C5_no_configuration_validation {}
    (fun _ => false) (fun _ => "")
    (fun _ => AjaxOutcome.success (.obj 1) (.str "s") (.obj 2))
    ["u1"] [0]).2 (by decide) (by decide) (by decide) (by decide)
  constructor
  · rw [h1.2]; rfl
  · rw [h2]; rfl

/-- Claim C6 — the claim is right and the code is wrong: the code's own
documentation (lines 41-44) says the `updateOnError` option's "Value is
used on the Batch element", with `'Return'` a valid value, but line 112
hard-codes `<Batch OnError="Continue">`; the configured directive is
never read by the batch builder.  Here `updateOnError = "Return"` is
configured, yet the submitted batch carries `OnError="Continue"`. -/
theorem C6_onerror_directive_ignored :
    (initRun { updateOnError := "Return" }
        ["<Method ID=\"1\" Cmd=\"Update\"><Field Name=\"Title\">x</Field></Method>"]).submitted
      = [(0, "<Batch OnError=\"Continue\"><Method ID=\"1\" Cmd=\"Update\"><Field Name=\"Title\">x</Field></Method></Batch>")] := by
  decide

/-- Witness for `C9_all_batches_submitted_exactly_once`: three one-update
batches under `concurrency = 2` with an out-of-order completion schedule;
the submitted payloads are the three built batches in build order, each
exactly once, and the dispatch resolves. -/
theorem C9_all_batches_submitted_exactly_once_witness :
    (finalState { batchSize := 1 }
        (fun _ => AjaxOutcome.success .jsUndefined .jsUndefined .jsUndefined)
        ["u1", "u2", "u3"] [1, 0, 2]).submitted.map Prod.snd
      = (buildBatches ["u1", "u2", "u3"] 1).map
          (fun l => wrapIfNeeded (strJoin l)) ∧
    (finalState { batchSize := 1 }
        (fun _ => AjaxOutcome.success .jsUndefined .jsUndefined .jsUndefined)
        ["u1", "u2", "u3"] [1, 0, 2]).resolved = true := by
  have h := C9_all_batches_submitted_exactly_once { batchSize := 1 }
    (fun _ => AjaxOutcome.success .jsUndefined .jsUndefined .jsUndefined)
    (fun _ => AjaxOutcome.failure .jsUndefined .jsUndefined .jsUndefined)
    ["u1", "u2", "u3"] [1, 0, 2] (by decide) (by decide) (by decide) (by decide)
  exact ⟨h.2.1, h.2.2.2⟩

/-! ### Lemmas about the option-preprocessing heap -/

theorem heapGet_append (h : Heap) (o : HObj) (r : Nat) (hr : r < h.length) :
    heapGet (h ++ [o]) r = heapGet h r := by
  simp [heapGet, List.getD, List.getElem?_append, hr]

theorem heapGet_append_self (h : Heap) (o : HObj) :
    heapGet (h ++ [o]) h.length = o := by
  simp [heapGet, List.getD]

theorem heapGet_set_ne (h : Heap) (i : Nat) (o : HObj) (r : Nat)
    (hne : r ≠ i) : heapGet (heapSet h i o) r = heapGet h r := by
  have hx : i ≠ r := fun habs => hne habs.symm
  simp [heapGet, heapSet, List.getD, List.getElem?_set_ne hx]

theorem heapGet_set_self (h : Heap) (i : Nat) (o : HObj) (hi : i < h.length) :
    heapGet (heapSet h i o) i = o := by
  simp [heapGet, heapSet, List.getD, List.getElem?_set_self, hi]

theorem find?_map_keyUpdate (k k' : String) (v : HVal)
    (hne : k' ≠ k) :
    ∀ (fs : List (String × HVal)),
      (fs.map (fun p => if p.1 == k then (k, v) else p)).find?
          (fun p => p.1 == k')
        = fs.find? (fun p => p.1 == k')
  | [] => rfl
  | p :: rest => by
      by_cases hk : p.1 = k
      · have h1 : (p.1 == k) = true := by simp [hk]
        have h2 : ((k : String) == k') = false := by
          simp [BEq.comm]
          exact fun habs => hne habs.symm
        have h3 : (p.1 == k') = false := by
          simp [hk]
          exact fun habs => hne habs.symm
        simp only [List.map_cons, List.find?, h1, if_pos, h2, h3]
        exact find?_map_keyUpdate k k' v hne rest
      · have h1 : (p.1 == k) = false := by simp [hk]
        simp only [List.map_cons, List.find?, h1, Bool.false_eq_true, if_neg,
          not_false_eq_true]
        by_cases hk' : (p.1 == k') = true
        · simp [hk']
        · have h2 : (p.1 == k') = false := by simpa using hk'
          simp only [h2]
          exact find?_map_keyUpdate k k' v hne rest

theorem fieldGet_fieldSet_ne (fs : List (String × HVal)) (k : String)
    (v : HVal) (k' : String) (hne : k' ≠ k) :
    fieldGet (fieldSet fs k v) k' = fieldGet fs k' := by
  unfold fieldSet
  by_cases hany : fs.any (fun p => p.1 == k) = true
  · simp only [hany, if_pos]
    unfold fieldGet
    rw [find?_map_keyUpdate k k' v hne fs]
  · simp only [hany, Bool.false_eq_true, if_neg, not_false_eq_true]
    unfold fieldGet
    rw [List.find?_append]
    cases hf : fs.find? (fun p => p.1 == k')
    · have h2 : ((k : String) == k') = false := by
        simp
        exact fun habs => hne habs.symm
      simp [List.find?, h2]
    · simp

theorem objSet_frame (h : Heap) (i : Nat) (k : String) (v : HVal) (r : Nat)
    (hne : r ≠ i) : heapGet (objSet h i k v) r = heapGet h r := by
  unfold objSet
  cases heapGet h i
  · exact heapGet_set_ne h i _ r hne
  · rfl

theorem objSet_cell (h : Heap) (i : Nat) (k : String) (v : HVal)
    (fs : List (String × HVal)) (hi : i < h.length)
    (hcell : heapGet h i = .hobj fs) :
    heapGet (objSet h i k v) i = .hobj (fieldSet fs k v) := by
  unfold objSet
  rw [hcell]
  exact heapGet_set_self h i _ hi

theorem objSet_length (h : Heap) (i : Nat) (k : String) (v : HVal) :
    (objSet h i k v).length = h.length := by
  unfold objSet
  cases heapGet h i
  · simp [heapSet]
  · rfl

theorem processArrayOfObjects_frame (optRef : Nat) :
    ∀ (es : List HVal) (h : Heap) (ups : List String) (r : Nat), r ≠ optRef →
      heapGet (processArrayOfObjects optRef es h ups).1 r = heapGet h r
  | [], h, ups, r, hr => rfl
  | e :: rest, h, ups, r, hr => by
      unfold processArrayOfObjects
      dsimp only
      split
      · rw [processArrayOfObjects_frame optRef rest _ _ r hr]
        exact objSet_frame h optRef _ _ r hr
      · exact processArrayOfObjects_frame optRef rest h ups r hr

theorem processArrayOfArrays_frame (optRef : Nat) (es : List HVal) (h : Heap)
    (ups : List String) (r : Nat) (hr : r ≠ optRef) :
    heapGet (processArrayOfArrays optRef es h ups).1 r = heapGet h r := by
  unfold processArrayOfArrays
  dsimp only
  split
  · exact objSet_frame h optRef _ _ r hr
  · rfl

theorem hArrPush_frame (h : Heap) (t : Nat) (add : HVal) (r : Nat)
    (hne : r ≠ t) : heapGet (hArrPush h (.href t) add) r = heapGet h r := by
  show heapGet (match heapGet h t with
    | .harr xs => heapSet h t (.harr (xs ++ [add]))
    | .hobj a => h) r = heapGet h r
  cases hcell : heapGet h t
  · rfl
  · exact heapGet_set_ne h t _ r hne

theorem hArrPush_cell (h : Heap) (t : Nat) (add : HVal) (xs : List HVal)
    (ht : t < h.length) (hcell : heapGet h t = .harr xs) :
    heapGet (hArrPush h (.href t) add) t = .harr (xs ++ [add]) := by
  show heapGet (match heapGet h t with
    | .harr xs => heapSet h t (.harr (xs ++ [add]))
    | .hobj a => h) t = .harr (xs ++ [add])
  rw [hcell]
  exact heapGet_set_self h t _ ht

theorem heapGet_oob (h : Heap) (r : Nat) (hge : h.length ≤ r) :
    heapGet h r = .hobj [] := by
  unfold heapGet
  rw [List.getD_eq_default]
  omega

theorem getUpdateArray_frame (optRef : Nat) (h : Heap)
    (hcond : (!hTruthy (objGet h optRef "updates") &&
        hTruthy (objGet h optRef "ID") &&
        hTruthy (objGet h optRef "valuepairs")) = false)
    (r : Nat) (hr : r ≠ optRef) :
    heapGet (getUpdateArray optRef h).1 r = heapGet h r := by
  unfold getUpdateArray
  dsimp only
  rw [hcond]
  simp only [Bool.false_eq_true, if_neg, not_false_eq_true]
  split
  · rfl
  · split
    · split
      · exact processArrayOfObjects_frame optRef _ h [] r hr
      · split
        · rfl
        · split
          · exact processArrayOfArrays_frame optRef _ h [] r hr
          · rfl
    · rfl

theorem getUpdateArray_bc (optRef : Nat) (h : Heap) (vr : Nat)
    (xs : List HVal) (hopt : optRef < h.length)
    (hcond : (!hTruthy (objGet h optRef "updates") &&
        hTruthy (objGet h optRef "ID") &&
        hTruthy (objGet h optRef "valuepairs")) = true)
    (hvp : objGet h optRef "valuepairs" = .href vr)
    (hcell : heapGet h vr = .harr xs)
    (hvr_ne : vr ≠ optRef) :
    heapGet (getUpdateArray optRef h).1 vr
      = .harr (xs ++ [.href h.length]) ∧
    heapGet (getUpdateArray optRef h).1 h.length
      = .harr [.vstr "ID", objGet h optRef "ID"] ∧
    (∀ r, r ≠ optRef → r ≠ vr → r ≠ h.length →
      heapGet (getUpdateArray optRef h).1 r = heapGet h r) := by
  have hvr_lt : vr < h.length := by
    by_contra hge
    rw [heapGet_oob h vr (by omega)] at hcell
    exact absurd hcell (by simp)
  have h4opt : ∀ k, objGet (h ++ [HObj.harr [.vstr "ID", objGet h optRef "ID"]])
      optRef k = objGet h optRef k := by
    intro k
    unfold objGet
    rw [heapGet_append h _ optRef hopt]
  have h4vr : heapGet (h ++ [HObj.harr [.vstr "ID", objGet h optRef "ID"]]) vr
      = .harr xs := by
    rw [heapGet_append h _ vr hvr_lt]
    exact hcell
  unfold getUpdateArray
  dsimp only
  rw [hcond]
  simp only [if_pos, heapAlloc]
  rw [h4opt "valuepairs", hvp]
  have hlen4 : (h ++ [HObj.harr [.vstr "ID", objGet h optRef "ID"]]).length
      = h.length + 1 := by simp
  have hpush_vr : heapGet (hArrPush
      (h ++ [HObj.harr [.vstr "ID", objGet h optRef "ID"]]) (.href vr)
      (.href h.length)) vr = .harr (xs ++ [.href h.length]) :=
    hArrPush_cell _ vr _ xs (by omega) h4vr
  have hpush_frame : ∀ r, r ≠ vr → heapGet (hArrPush
      (h ++ [HObj.harr [.vstr "ID", objGet h optRef "ID"]]) (.href vr)
      (.href h.length)) r
      = heapGet (h ++ [HObj.harr [.vstr "ID", objGet h optRef "ID"]]) r :=
    fun r hrne => hArrPush_frame _ vr _ r hrne
  refine ⟨?_, ?_, ?_⟩
  · rw [processArrayOfArrays_frame optRef _ _ [] vr hvr_ne]
    exact hpush_vr
  · rw [processArrayOfArrays_frame optRef _ _ [] h.length (by omega)]
    rw [hpush_frame h.length (by omega)]
    exact heapGet_append_self h _
  · intro r hr1 hr2 hr3
    rw [processArrayOfArrays_frame optRef _ _ [] r hr1]
    rw [hpush_frame r hr2]
    by_cases hrlt : r < h.length
    · exact heapGet_append h _ r hrlt
    · rw [heapGet_oob h r (by omega), heapGet_oob _ r (by simp; omega)]

theorem prep_core (h : Heap) (optionsRef : Nat) (fs : List (String × HVal))
    (h2 : Heap) (g2 : List (String × HVal))
    (hlt : optionsRef < h.length)
    (hcell : heapGet h optionsRef = .hobj fs)
    (hframe2 : ∀ r, r ≠ h.length →
      heapGet h2 r = heapGet (h ++ [HObj.hobj (mergedOptFields fs)]) r)
    (hlen2 : h2.length = h.length + 1)
    (hcell2 : heapGet h2 h.length = .hobj g2)
    (hg2 : ∀ k, k ≠ "webURL" → fieldGet g2 k = fieldGet (mergedOptFields fs) k)
    (hwf : bcCondB (mergedOptFields fs) = true →
      ∃ vr xs, fieldGet (mergedOptFields fs) "valuepairs" = .href vr ∧
        heapGet h vr = .harr xs) :
    heapGet (getUpdateArray h.length (objSet h2 h.length "updateType"
        (hOr (objGet h2 h.length "batchCmd")
          (objGet h2 h.length "updateType")))).1 optionsRef = .hobj fs ∧
    (∀ vr xs, bcCondB (mergedOptFields fs) = true →
      fieldGet (mergedOptFields fs) "valuepairs" = .href vr →
      heapGet h vr = .harr xs →
      heapGet (getUpdateArray h.length (objSet h2 h.length "updateType"
          (hOr (objGet h2 h.length "batchCmd")
            (objGet h2 h.length "updateType")))).1 vr
        = .harr (xs ++ [.href (h.length + 1)]) ∧
      heapGet (getUpdateArray h.length (objSet h2 h.length "updateType"
          (hOr (objGet h2 h.length "batchCmd")
            (objGet h2 h.length "updateType")))).1 (h.length + 1)
        = .harr [.vstr "ID", fieldGet (mergedOptFields fs) "ID"]) ∧
    (bcCondB (mergedOptFields fs) = false →
      ∀ r, r < h.length →
        heapGet (getUpdateArray h.length (objSet h2 h.length "updateType"
            (hOr (objGet h2 h.length "batchCmd")
              (objGet h2 h.length "updateType")))).1 r = heapGet h r) ∧
    (∀ vr, bcCondB (mergedOptFields fs) = true →
      fieldGet (mergedOptFields fs) "valuepairs" = .href vr →
      ∀ r, r < h.length → r ≠ vr →
        heapGet (getUpdateArray h.length (objSet h2 h.length "updateType"
            (hOr (objGet h2 h.length "batchCmd")
              (objGet h2 h.length "updateType")))).1 r = heapGet h r) := by
  set M := mergedOptFields fs with hM
  set optRef := h.length with hoptRef
  set v3 := hOr (objGet h2 optRef "batchCmd") (objGet h2 optRef "updateType")
    with hv3
  set h3 := objSet h2 optRef "updateType" v3 with hh3
  have h3cell : heapGet h3 optRef = .hobj (fieldSet g2 "updateType" v3) :=
    objSet_cell h2 optRef "updateType" v3 g2 (by omega) hcell2
  have h3len : h3.length = h.length + 1 := by
    rw [hh3, objSet_length, hlen2]
  have h3frame : ∀ r, r ≠ optRef → r < h.length →
      heapGet h3 r = heapGet h r := by
    intro r hne hrlt
    rw [hh3, objSet_frame h2 optRef _ _ r hne, hframe2 r hne,
      heapGet_append h _ r hrlt]
  have hobjGet3 : ∀ k, k ≠ "webURL" → k ≠ "updateType" →
      objGet h3 optRef k = fieldGet M k := by
    intro k hk1 hk2
    unfold objGet
    rw [h3cell]
    dsimp only
    rw [fieldGet_fieldSet_ne g2 "updateType" v3 k hk2, hg2 k hk1]
  have hcondEq : (!hTruthy (objGet h3 optRef "updates") &&
      hTruthy (objGet h3 optRef "ID") &&
      hTruthy (objGet h3 optRef "valuepairs")) = bcCondB M := by
    unfold bcCondB
    rw [hobjGet3 "updates" (by decide) (by decide),
      hobjGet3 "ID" (by decide) (by decide),
      hobjGet3 "valuepairs" (by decide) (by decide)]
  by_cases hbc : bcCondB M = true
  · -- backwards-compatibility path: the caller's valuepairs array is pushed to
    rcases hwf hbc with ⟨vr, xs, hvp, hvrcell⟩
    have hvr_lt : vr < h.length := by
      by_contra hge
      rw [heapGet_oob h vr (by omega)] at hvrcell
      exact absurd hvrcell (by simp)
    have hvp3 : objGet h3 optRef "valuepairs" = .href vr := by
      rw [hobjGet3 "valuepairs" (by decide) (by decide)]
      exact hvp
    have hvr3 : heapGet h3 vr = .harr xs := by
      rw [h3frame vr (by omega) hvr_lt]
      exact hvrcell
    have hcond : (!hTruthy (objGet h3 optRef "updates") &&
        hTruthy (objGet h3 optRef "ID") &&
        hTruthy (objGet h3 optRef "valuepairs")) = true := by
      rw [hcondEq]
      exact hbc
    have hbcfacts := getUpdateArray_bc optRef h3 vr xs (by omega) hcond hvp3
      hvr3 (by omega)
    have hopts_ne_vr : optionsRef ≠ vr := by
      intro habs
      rw [habs, hvrcell] at hcell
      exact absurd hcell (by simp)
    refine ⟨?_, ?_, ?_, ?_⟩
    · rw [hbcfacts.2.2 optionsRef (by omega) hopts_ne_vr (by omega)]
      rw [h3frame optionsRef (by omega) hlt]
      exact hcell
    · intro vr' xs' _ hvp' hcell'
      have hvr_eq : vr' = vr := by
        rw [hvp] at hvp'
        injection hvp' with h
        exact h.symm
      subst hvr_eq
      have hxs_eq : xs' = xs := by
        rw [hvrcell] at hcell'
        injection hcell' with h
        exact h.symm
      subst hxs_eq
      have hlen3' : optRef + 1 = h3.length := by omega
      constructor
      · rw [hlen3']
        exact hbcfacts.1
      · rw [hlen3']
        rw [hbcfacts.2.1, hobjGet3 "ID" (by decide) (by decide)]
    · intro hbcf
      exact absurd hbc (by rw [hbcf]; simp)
    · intro vr' _ hvp' r hrlt hrne
      have hvr_eq : vr' = vr := by
        rw [hvp] at hvp'
        injection hvp' with h
        exact h.symm
      subst hvr_eq
      rw [hbcfacts.2.2 r (by omega) hrne (by omega)]
      exact h3frame r (by omega) hrlt
  · have hcond : (!hTruthy (objGet h3 optRef "updates") &&
        hTruthy (objGet h3 optRef "ID") &&
        hTruthy (objGet h3 optRef "valuepairs")) = false := by
      rw [hcondEq]
      simpa using hbc
    refine ⟨?_, ?_, ?_, ?_⟩
    · rw [getUpdateArray_frame optRef h3 hcond optionsRef (by omega)]
      rw [h3frame optionsRef (by omega) hlt]
      exact hcell
    · intro vr xs hbct
      exact absurd hbct hbc
    · intro _ r hrlt
      rw [getUpdateArray_frame optRef h3 hcond r (by omega)]
      exact h3frame r (by omega) hrlt
    · intro vr hbct
      exact absurd hbct hbc

/-- Claim C10 — the entry point operates on a shallow copy of the caller's
options (`$.extend({}, defaults, options, {counter: 1})` allocates a
fresh object), so the caller's options object itself is never mutated;
but in the backwards-compatibility path — `options.updates` falsy (absent
callers get the falsy default `''`) with `options.ID` and
`options.valuepairs` supplied — the caller's `valuepairs` *array* is
mutated in place through the shared reference: exactly the pair
`["ID", options.ID]` is appended (as a freshly allocated two-element
array).  Outside that path no pre-existing heap cell changes, and inside
it no pre-existing cell other than the `valuepairs` array changes.  The
hypothesis `hwf` states that when the path is taken, `valuepairs` indeed
refers to an array (otherwise the JavaScript `push` call would throw). -/
theorem C10_caller_options_aliasing (siteUrl : String) (h : Heap)
    (optionsRef : Nat) (fs : List (String × HVal))
    (hlt : optionsRef < h.length)
    (hcell : heapGet h optionsRef = .hobj fs)
    (hwf : bcCondB (mergedOptFields fs) = true →
      ∃ vr xs, fieldGet (mergedOptFields fs) "valuepairs" = .href vr ∧
        heapGet h vr = .harr xs) :
    heapGet (updateListItemsPrep siteUrl h optionsRef).1 optionsRef
      = .hobj fs ∧
    (∀ vr xs, bcCondB (mergedOptFields fs) = true →
      fieldGet (mergedOptFields fs) "valuepairs" = .href vr →
      heapGet h vr = .harr xs →
      heapGet (updateListItemsPrep siteUrl h optionsRef).1 vr
        = .harr (xs ++ [.href (h.length + 1)]) ∧
      heapGet (updateListItemsPrep siteUrl h optionsRef).1 (h.length + 1)
        = .harr [.vstr "ID", fieldGet (mergedOptFields fs) "ID"]) ∧
    (bcCondB (mergedOptFields fs) = false →
      ∀ r, r < h.length →
        heapGet (updateListItemsPrep siteUrl h optionsRef).1 r
          = heapGet h r) ∧
    (∀ vr, bcCondB (mergedOptFields fs) = true →
      fieldGet (mergedOptFields fs) "valuepairs" = .href vr →
      ∀ r, r < h.length → r ≠ vr →
        heapGet (updateListItemsPrep siteUrl h optionsRef).1 r
          = heapGet h r) := by
  unfold updateListItemsPrep
  dsimp only [heapAlloc]
  rw [hcell]
  dsimp only
  have hcellM : heapGet (h ++ [HObj.hobj (mergedOptFields fs)]) h.length
      = .hobj (mergedOptFields fs) := heapGet_append_self h _
  have hlen1 : (h ++ [HObj.hobj (mergedOptFields fs)]).length
      = h.length + 1 := by simp
  split
  · -- `!opt.webURL`: `opt.webURL = getSiteUrl()`
    exact prep_core h optionsRef fs _ (fieldSet (mergedOptFields fs) "webURL"
        (.vstr siteUrl))
      hlt hcell
      (fun r hr => objSet_frame _ h.length _ _ r hr)
      (by rw [objSet_length, hlen1])
      (objSet_cell _ h.length _ _ (mergedOptFields fs) (by omega) hcellM)
      (fun k hk => fieldGet_fieldSet_ne (mergedOptFields fs) "webURL" _ k hk)
      hwf
  · split
    · split
      · -- webURL already ends in "/": untouched
        exact prep_core h optionsRef fs _ (mergedOptFields fs)
          hlt hcell (fun r hr => rfl) hlen1 hcellM (fun k hk => rfl) hwf
      · -- append the trailing slash
        exact prep_core h optionsRef fs _ (fieldSet (mergedOptFields fs)
            "webURL" _)
          hlt hcell
          (fun r hr => objSet_frame _ h.length _ _ r hr)
          (by rw [objSet_length, hlen1])
          (objSet_cell _ h.length _ _ (mergedOptFields fs) (by omega) hcellM)
          (fun k hk => fieldGet_fieldSet_ne (mergedOptFields fs) "webURL" _ k hk)
          hwf
    · -- non-string truthy webURL: untouched
      exact prep_core h optionsRef fs _ (mergedOptFields fs)
        hlt hcell (fun r hr => rfl) hlen1 hcellM (fun k hk => rfl) hwf

/-- Witness for `C10_caller_options_aliasing`: caller options
`{ID: "3", valuepairs: [["Title","x"]]}` (no `updates`); the caller's
options object is untouched and the caller's `valuepairs` array gains
exactly the appended `["ID", "3"]` pair. -/
theorem C10_caller_options_aliasing_witness :
    heapGet (updateListItemsPrep "http://site/"
        [.hobj [("ID", .vstr "3"), ("valuepairs", .href 1)],
         .harr [.href 2], .harr [.vstr "Title", .vstr "x"]] 0).1 0
      = .hobj [("ID", .vstr "3"), ("valuepairs", .href 1)] ∧
    heapGet (updateListItemsPrep "http://site/"
        [.hobj [("ID", .vstr "3"), ("valuepairs", .href 1)],
         .harr [.href 2], .harr [.vstr "Title", .vstr "x"]] 0).1 1
      = .harr [.href 2, .href 4] ∧
    heapGet (updateListItemsPrep "http://site/"
        [.hobj [("ID", .vstr "3"), ("valuepairs", .href 1)],
         .harr [.href 2], .harr [.vstr "Title", .vstr "x"]] 0).1 4
      = .harr [.vstr "ID", .vstr "3"] := by
  have hm := C10_caller_options_aliasing "http://site/"
    [.hobj [("ID", .vstr "3"), ("valuepairs", .href 1)],
     .harr [.href 2], .harr [.vstr "Title", .vstr "x"]] 0
    [("ID", .vstr "3"), ("valuepairs", .href 1)]
    (by decide) (by decide)
    (fun _ => ⟨1, [.href 2], by decide, by decide⟩)
  have h2 := hm.2.1 1 [.href 2] (by decide) (by decide) (by decide)
  refine ⟨hm.1, ?_, ?_⟩
  · have := h2.1
    simpa using this
  · have := h2.2
    rw [show fieldGet (mergedOptFields
        [("ID", HVal.vstr "3"), ("valuepairs", HVal.href 1)]) "ID"
      = HVal.vstr "3" from by decide] at this
    simpa using this
